import Mathlib

/-!
# Verification of the dotted-path configuration engine (`config.go`)

This file is a shallow embedding of the Go configuration library in
`src/config.go`: a dynamically-typed tree of mappings, sequences and
scalars, addressed by dot-separated paths, with a mutating `Set`
(auto-vivification plus array resizing), a pure `Get`, typed scalar
accessors, and a normalizer for raw decoder output.

Modelling conventions:
* Go `interface{}` trees become the inductive `Value`.  Go
  `map[string]interface{}` is modelled as an association list whose
  lookup and update touch the first matching key; Go map iteration
  order is irrelevant to the properties proved here.
* Go machine integers are modelled as `Int` (Go `strconv.Atoi` /
  `ParseInt(s, 10, 0)` overflow at 2^63 is not modelled; every claim
  is about small indices).
* Go `float64` scalars are modelled as exact rationals; the only float
  operations the code performs are truncation to `int` and `fmt.Sprint`
  formatting, modelled below for values with a finite decimal expansion
  (all floats appearing in the claims are of that shape).
* Go run-time aborts (slice index panic, `make` with negative length)
  are modelled by the explicit result constructor `crash`; returned
  errors are the `err` constructors.
* `Config.Set` mutates `cfg.Root` in place; the embedding is
  state-passing: each result carries the updated root, including the
  error case (the Go code keeps the partially mutated tree on error
  while returning `nil` maps).
-/

set_option autoImplicit false

namespace Config

/-- The canonical tree node: Go `interface{}` after normalization, plus
the `int` scalar that `Set` can insert programmatically. -/
inductive Value where
  | null
  | bool (b : Bool)
  | int (n : Int)
  | float (q : ℚ)
  | str (s : String)
  | arr (xs : List Value)
  | map (es : List (String × Value))

mutual

def decValueEq (a b : Value) : Decidable (a = b) := by
  cases a <;> cases b <;>
    try { apply isFalse; intro h; injection h }
  case null.null => exact isTrue rfl
  case bool.bool x y =>
    exact match decEq x y with
    | isTrue h => isTrue (by rw [h])
    | isFalse h => isFalse (by intro hc; injection hc; contradiction)
  case int.int x y =>
    exact match decEq x y with
    | isTrue h => isTrue (by rw [h])
    | isFalse h => isFalse (by intro hc; injection hc; contradiction)
  case float.float x y =>
    exact match decEq x y with
    | isTrue h => isTrue (by rw [h])
    | isFalse h => isFalse (by intro hc; injection hc; contradiction)
  case str.str x y =>
    exact match decEq x y with
    | isTrue h => isTrue (by rw [h])
    | isFalse h => isFalse (by intro hc; injection hc; contradiction)
  case arr.arr xs ys =>
    exact match decValueListEq xs ys with
    | isTrue h => isTrue (by rw [h])
    | isFalse h => isFalse (by intro hc; injection hc; contradiction)
  case map.map es fs =>
    exact match decEntryListEq es fs with
    | isTrue h => isTrue (by rw [h])
    | isFalse h => isFalse (by intro hc; injection hc; contradiction)

def decValueListEq (xs ys : List Value) : Decidable (xs = ys) :=
  match xs, ys with
  | [], [] => isTrue rfl
  | _ :: _, [] => isFalse (by intro h; exact List.noConfusion h)
  | [], _ :: _ => isFalse (by intro h; exact List.noConfusion h)
  | x :: xs, y :: ys =>
    match decValueEq x y, decValueListEq xs ys with
    | isTrue h1, isTrue h2 => isTrue (by rw [h1, h2])
    | isFalse h1, _ => isFalse (by intro h; injection h; contradiction)
    | _, isFalse h2 => isFalse (by intro h; injection h; contradiction)

def decEntryListEq (es fs : List (String × Value)) : Decidable (es = fs) :=
  match es, fs with
  | [], [] => isTrue rfl
  | _ :: _, [] => isFalse (by intro h; exact List.noConfusion h)
  | [], _ :: _ => isFalse (by intro h; exact List.noConfusion h)
  | (k, v) :: es, (k', v') :: fs =>
    match decEq k k', decValueEq v v', decEntryListEq es fs with
    | isTrue h1, isTrue h2, isTrue h3 => isTrue (by rw [h1, h2, h3])
    | isFalse h1, _, _ =>
      isFalse (by intro h; injection h with hp ht; rw [Prod.mk.injEq] at hp; exact h1 hp.1)
    | _, isFalse h2, _ =>
      isFalse (by intro h; injection h with hp ht; rw [Prod.mk.injEq] at hp; exact h2 hp.2)
    | _, _, isFalse h3 => isFalse (by intro h; injection h; contradiction)

end

instance : DecidableEq Value := decValueEq

/-- Lookup in a Go map modelled as an association list (first match). -/
def mapGet : List (String × Value) → String → Option Value
  | [], _ => none
  | (k', v') :: rest, k => if k' = k then some v' else mapGet rest k

/-- Go `v[key] = x`: replace the first matching entry, else append. -/
def mapSet : List (String × Value) → String → Value → List (String × Value)
  | [], k, v => [(k, v)]
  | (k', v') :: rest, k, v =>
    if k' = k then (k, v) :: rest else (k', v') :: mapSet rest k v

/-- Go slice read `xs[i]` for an index already checked to be in bounds
(the absent value is returned in the impossible out-of-range case). -/
def arrGet (xs : List Value) (i : Nat) : Value :=
  match xs.get? i with
  | some w => w
  | none => .null

/-- Digit list to a natural number, `none` unless nonempty and all digits. -/
def parseNatDigits (cs : List Char) : Option Nat :=
  if cs = [] then none
  else if cs.all Char.isDigit then
    some (cs.foldl (fun acc c => acc * 10 + (c.toNat - 48)) 0)
  else none

/-- Go `strconv.Atoi` / `strconv.ParseInt(s, 10, 0)`: optional sign then
at least one digit (64-bit overflow not modelled). -/
def goAtoi (s : String) : Option Int :=
  match s.data with
  | [] => none
  | '+' :: cs => (parseNatDigits cs).map Int.ofNat
  | '-' :: cs => (parseNatDigits cs).map (fun n => -(n : Int))
  | cs => (parseNatDigits cs).map Int.ofNat

/-- Go `strings.Trim(s, string(c))`: drop the character from both ends. -/
def trimChar (c : Char) (s : String) : String :=
  String.mk (((s.data.dropWhile (· = c)).reverse.dropWhile (· = c)).reverse)

/-- The path preprocessing of `Config.Set`: `strings.Trim(path, ".")`
followed by `strings.Trim(path, " ")`, in that order. -/
def trimPath (s : String) : String := trimChar ' ' (trimChar '.' s)

/-- Splitting a character list at every dot; always nonempty, and keeps
empty groups, like Go `strings.Split(s, ".")`. -/
def splitDotChars : List Char → List (List Char)
  | [] => [[]]
  | c :: cs =>
    if c = '.' then [] :: splitDotChars cs
    else
      match splitDotChars cs with
      | [] => [[c]]
      | g :: gs => (c :: g) :: gs

/-- Go `strings.Split(s, ".")`. -/
def splitDot (s : String) : List String := (splitDotChars s.data).map String.mk

/-- Go `strings.Join(ks, ".")`. -/
def joinDot (ks : List String) : String := String.intercalate "." ks

/-- Go `resizeArray(key, obj)`: if `key` parses as an integer `n`, a nil
`obj` becomes a fresh sequence of length `n+1` (Go `make` aborts on a
negative length, modelled as `none`), a sequence shorter than `n+1`
grows to `n+1` with absent-value padding, and anything else is returned
unchanged. -/
def resizeArray (key : String) (obj : Value) : Option Value :=
  match goAtoi key with
  | none => some obj
  | some n =>
    match obj with
    | .null =>
      if n + 1 < 0 then none
      else some (.arr (List.replicate (n + 1).toNat .null))
    | .arr xs =>
      if (xs.length : Int) ≤ n then
        some (.arr (xs ++ List.replicate ((n + 1).toNat - xs.length) .null))
      else some (.arr xs)
    | other => some other

/-- The child container `Config.Set` creates under an absent mapping key:
a sequence of length `nextIndex+1` when the next segment is numeric
(Go `makeArray` aborts on a negative length), else an empty mapping. -/
def makeChild (next : String) : Option Value :=
  match goAtoi next with
  | some n =>
    if n + 1 < 0 then none
    else some (.arr (List.replicate (n + 1).toNat .null))
  | none => some (.map [])

/-- Outcome of `Config.Set`: `ok` carries the updated root and the
`modified`/`added` books; `err` carries the updated root (the Go method
has already mutated `cfg.Root` in place) while the returned maps are
nil; `crash` is a Go run-time abort. -/
inductive SetOut where
  | ok (root : Value) (modified added : List (String × Value))
  | err (root : Value) (msg : String)
  | crash
deriving DecidableEq

/-- The tree held in a `SetOut` (arbitrary for `crash`). -/
def SetOut.val : SetOut → Value
  | .ok c _ _ => c
  | .err c _ => c
  | .crash => .null

/-- Reattach a walked child under a mapping key (the Go original mutates
the shared map in place; the embedding rewrites the entry). -/
def reattachMap (es : List (String × Value)) (k : String) : SetOut → SetOut
  | .ok c m a => .ok (.map (mapSet es k c)) m a
  | .err c msg => .err (.map (mapSet es k c)) msg
  | .crash => .crash

/-- Reattach a walked child at a sequence index. -/
def reattachArr (xs : List Value) (i : Nat) : SetOut → SetOut
  | .ok c m a => .ok (.arr (xs.set i c)) m a
  | .err c msg => .err (.arr (xs.set i c)) msg
  | .crash => .crash

/-- The main loop of `Config.Set` (config.go lines 65-130), walking the
split path segments.  `pre` is the list of segments already consumed,
used to join the reported full paths.  A current value that is neither
a mapping nor a sequence matches no `switch` case in the Go loop, which
silently skips every remaining segment and returns, with a nil error. -/
def setWalk (c : Value) (ks : List String) (v : Value) (pre : List String) : SetOut :=
  match ks with
  | [] => .ok c [] []
  | [k] =>
    match c with
    | .map es =>
      match mapGet es k with
      | some obj =>
        if obj = v then .ok (.map es) [] []
        else .ok (.map (mapSet es k v)) [(joinDot (pre ++ [k]), obj)] []
      | none => .ok (.map (mapSet es k v)) [] [(joinDot (pre ++ [k]), v)]
    | .arr xs =>
      match goAtoi k with
      | some i =>
        if 0 ≤ i ∧ i < (xs.length : Int) then
          let old := arrGet xs i.toNat
          if old = .null then
            .ok (.arr (xs.set i.toNat v)) [] [(joinDot (pre ++ [k]), old)]
          else if old = v then .ok (.arr xs) [] []
          else .ok (.arr (xs.set i.toNat v)) [(joinDot (pre ++ [k]), old)] []
        else .err (.arr xs) ("index out of bounds. " ++ joinDot (pre ++ [k]))
      | none => .err (.arr xs) ("object is array. index missmatch " ++ joinDot (pre ++ [k]))
    | other => .ok other [] []
  | k :: next :: rest =>
    match c with
    | .map es =>
      match mapGet es k with
      | some obj =>
        match resizeArray next obj with
        | none => .crash
        | some obj' => reattachMap es k (setWalk obj' (next :: rest) v (pre ++ [k]))
      | none =>
        match makeChild next with
        | none => .crash
        | some child => reattachMap es k (setWalk child (next :: rest) v (pre ++ [k]))
    | .arr xs =>
      match goAtoi k with
      | some i =>
        if 0 ≤ i ∧ i < (xs.length : Int) then
          match resizeArray next (arrGet xs i.toNat) with
          | none => .crash
          | some old' => reattachArr xs i.toNat (setWalk old' (next :: rest) v (pre ++ [k]))
        else .err (.arr xs) ("index out of bounds. " ++ joinDot (pre ++ [k]))
      | none => .err (.arr xs) ("object is array. index missmatch " ++ joinDot (pre ++ [k]))
    | other => .ok other [] []

/-- config.go lines 42-44: a nil root becomes an empty mapping. -/
def rootInit (root : Value) : Value :=
  if root = .null then .map [] else root

/-- config.go lines 51-58: a root that is neither a mapping nor a
sequence is recorded into `modified[""]` and replaced by a fresh empty
mapping.  Returns the root actually walked plus the pre-walk entries. -/
def rootFix (r : Value) : Value × List (String × Value) :=
  match r with
  | .map es => (.map es, [])
  | .arr xs => (.arr xs, [])
  | other => (.map [], [("", other)])

/-- `Config.Set` (config.go lines 36-131). -/
def goSet (root : Value) (path : String) (value : Value) : SetOut :=
  let p := trimPath path
  let r1 := rootInit root
  if p = "" then .ok value [] [("", value)]
  else
    let fr := rootFix r1
    match setWalk fr.1 (splitDot p) value [] with
    | .ok t m a => .ok t (fr.2 ++ m) a
    | .err t msg => .err t msg
    | .crash => .crash

/-- Outcome of `Get`. -/
inductive GetOut where
  | ok (v : Value)
  | err (msg : String)
  | crash
deriving DecidableEq

def GetOut.isErr : GetOut → Bool
  | .err _ => true
  | _ => false

/-- Path normalization of `Get` (config.go lines 275-285): an empty
segment at index 0 is dropped; an empty segment anywhere else is an
invalid path. -/
def normParts (ps : List String) : Option (List String) :=
  match ps with
  | [] => some []
  | p0 :: rest =>
    if rest.any (· = "") then none
    else some (if p0 = "" then rest else p0 :: rest)

/-- The walk of `Get` (config.go lines 287-314).  Note the sequence
case checks only `int(i) < len(c)` before indexing `c[i]`, so a
negative parsed index reaches the Go slice indexing and aborts. -/
def getWalk (c : Value) (ps : List String) (pre : List String) : GetOut :=
  match ps with
  | [] => .ok c
  | part :: rest =>
    match c with
    | .arr xs =>
      match goAtoi part with
      | some i =>
        if i < (xs.length : Int) then
          if 0 ≤ i then getWalk (arrGet xs i.toNat) rest (pre ++ [part])
          else .crash
        else
          .err ("Index out of range at " ++ joinDot (pre ++ [part]) ++
            ": list has only " ++ toString xs.length ++ " items")
      | none => .err ("Invalid list index at " ++ joinDot (pre ++ [part]))
    | .map es =>
      match mapGet es part with
      | some v => getWalk v rest (pre ++ [part])
      | none => .err ("Nonexistent map key at " ++ joinDot (pre ++ [part]))
    | _ => .err ("Invalid type at " ++ joinDot (pre ++ [part]))

/-- `Get` (config.go lines 274-316). -/
def goGet (root : Value) (path : String) : GetOut :=
  match normParts (splitDot path) with
  | none => .err ("Invalid path " ++ path)
  | some parts => getWalk root parts []

/-! ## Typed accessor: `Config.Int` -/

/-- Go `fmt.Sprint` of an `int`: base-10 with a leading minus sign. -/
def goSprintInt (n : Int) : String := toString n

/-- Fraction digits of `num/den` (with `num < den`) by long division,
dropping once the remainder is zero.  `fuel` bounds the digit count. -/
def fracDigits : Nat → Nat → Nat → List Char
  | 0, _, _ => []
  | _ + 1, 0, _ => []
  | fuel + 1, num, den =>
    let num10 := num * 10
    Char.ofNat (48 + num10 / den) :: fracDigits fuel (num10 % den) den

/-- Go `fmt.Sprint` of a `float64` (`strconv.FormatFloat 'g' -1`),
modelled for values with a finite decimal expansion: integral values
print with no decimal point, exactly like the corresponding `int`
(which is what the round-trip test in `Config.Int` relies on), and
other values print integer part, a dot, then the fraction digits.
Every float a claim evaluates is of this shape. -/
def goSprintFloat (q : ℚ) : String :=
  if q.den = 1 then toString q.num
  else
    (if q < 0 then "-" else "") ++ toString (q.num.natAbs / q.den) ++ "." ++
      String.mk (fracDigits 20 (q.num.natAbs % q.den) q.den)

/-- Go conversion `int(n)` for a `float64`: truncation toward zero. -/
def goTrunc (q : ℚ) : Int := Int.tdiv q.num (q.den : Int)

/-- Outcome of `Config.Int`. -/
inductive IntOut where
  | ok (n : Int)
  | err (msg : String)
  | crash
deriving DecidableEq

def IntOut.isErr : IntOut → Bool
  | .err _ => true
  | _ => false

/-- `Config.Int` (config.go lines 201-225): a stored float is accepted
only when truncating it to `int` and printing both gives the same text;
a stored string goes through `strconv.ParseInt(s, 10, 0)`. -/
def cfgInt (root : Value) (path : String) : IntOut :=
  match goGet root path with
  | .crash => .crash
  | .err m => .err m
  | .ok n =>
    match n with
    | .float q =>
      let i := goTrunc q
      if goSprintInt i = goSprintFloat q then .ok i
      else .err ("Value cant be converted to int: " ++ goSprintFloat q)
    | .int m => .ok m
    | .str s =>
      match goAtoi s with
      | some v => .ok v
      | none => .err ("parsing " ++ s ++ ": invalid syntax")
    | _ => .err "Type mismatch: expected float64, int or string"

/-! ## The normalizer -/

/-- A raw value as produced by an external JSON/YAML decoder, before
normalization: maps may have arbitrarily-typed keys, and `other` stands
for any decoded type the normalizer does not support (carrying its Go
type name). -/
inductive Raw where
  | null
  | bool (b : Bool)
  | int (n : Int)
  | float (q : ℚ)
  | str (s : String)
  | list (xs : List Raw)
  | smap (es : List (String × Raw))
  | imap (es : List (Raw × Raw))

mutual

/-- `normalizeValue` (config.go lines 331-371). -/
def normalizeValue : Raw → Except String Value
  | .null => .ok .null
  | .bool b => .ok (.bool b)
  | .int n => .ok (.int n)
  | .float q => .ok (.float q)
  | .str s => .ok (.str s)
  | .list xs =>
    match normList xs with
    | .ok vs => .ok (.arr vs)
    | .error e => .error e
  | .smap es =>
    match normSMap es with
    | .ok ns => .ok (.map ns)
    | .error e => .error e
  | .imap es =>
    match normIMap es with
    | .ok ns => .ok (.map ns)
    | .error e => .error e

/-- Elements of a raw list, in order; an element failure is reported as
an unsupported list item. -/
def normList : List Raw → Except String (List Value)
  | [] => .ok []
  | x :: xs =>
    match normalizeValue x with
    | .error _ => .error "Unsupported list item"
    | .ok v =>
      match normList xs with
      | .ok vs => .ok (v :: vs)
      | .error e => .error e

/-- Entries of a string-keyed raw map; a value failure is reported as
an unsupported map value. -/
def normSMap : List (String × Raw) → Except String (List (String × Value))
  | [] => .ok []
  | (k, x) :: es =>
    match normalizeValue x with
    | .error _ => .error "Unsupported map value"
    | .ok v =>
      match normSMap es with
      | .ok ns => .ok ((k, v) :: ns)
      | .error e => .error e

/-- Entries of an interface-keyed raw map: each key must dynamically be
a string, else the map is rejected with an unsupported-key error. -/
def normIMap : List (Raw × Raw) → Except String (List (String × Value))
  | [] => .ok []
  | (k, x) :: es =>
    match k with
    | .str s =>
      match normalizeValue x with
      | .error _ => .error "Unsupported map value"
      | .ok v =>
        match normIMap es with
        | .ok ns => .ok ((s, v) :: ns)
        | .error e => .error e
    | _ => .error "Unsupported map key"

end

/-- The string carried by a raw key known to be a string. -/
def rawKeyStr : Raw → String
  | .str s => s
  | _ => ""

/-- The canonical value of a raw value known to normalize. -/
def normVal (r : Raw) : Value :=
  match normalizeValue r with
  | .ok v => v
  | .error _ => .null

/-! ## Tree positions, for the no-shrink invariant -/

/-- One navigation step inside a canonical tree. -/
inductive Step where
  | key (k : String)
  | idx (i : Nat)
deriving DecidableEq

/-- The subtree of a value at a list of steps, if the steps resolve. -/
def subtree : Value → List Step → Option Value
  | v, [] => some v
  | .map es, .key k :: p =>
    match mapGet es k with
    | some w => subtree w p
    | none => none
  | .arr xs, .idx i :: p =>
    match xs.get? i with
    | some w => subtree w p
    | none => none
  | _, _ => none

/-- The position at which `setWalk` stores the given value, mirroring
the walk; `none` when the walk errors, aborts, or falls through without
storing. -/
def targetSteps (c : Value) (ks : List String) : Option (List Step) :=
  match ks with
  | [] => none
  | [k] =>
    match c with
    | .map _ => some [Step.key k]
    | .arr xs =>
      match goAtoi k with
      | some i =>
        if 0 ≤ i ∧ i < (xs.length : Int) then some [Step.idx i.toNat] else none
      | none => none
    | _ => none
  | k :: next :: rest =>
    match c with
    | .map es =>
      match mapGet es k with
      | some obj =>
        match resizeArray next obj with
        | some obj' => (targetSteps obj' (next :: rest)).map (Step.key k :: ·)
        | none => none
      | none =>
        match makeChild next with
        | some child => (targetSteps child (next :: rest)).map (Step.key k :: ·)
        | none => none
    | .arr xs =>
      match goAtoi k with
      | some i =>
        if 0 ≤ i ∧ i < (xs.length : Int) then
          match resizeArray next (arrGet xs i.toNat) with
          | some old' => (targetSteps old' (next :: rest)).map (Step.idx i.toNat :: ·)
          | none => none
        else none
      | none => none
    | _ => none

/-- The target position of a whole `Config.Set` call: the empty path
replaces the root itself. -/
def setTarget (root : Value) (path : String) : Option (List Step) :=
  let p := trimPath path
  if p = "" then some []
  else targetSteps (rootFix (rootInit root)).1 (splitDot p)

/-- The rational 85/2 = 42.5, the float of the type-coercion claim,
written with an explicit numerator and denominator so that the kernel
can evaluate the accessor on it. -/
def ratFortyTwoPointFive : ℚ :=
  ⟨85, 2, by norm_num, by norm_num [Int.natAbs, Nat.Coprime]⟩

/-- Mappings and sequences are containers, everything else a scalar (the
absent value counts as a scalar here, matching the `switch` in `Set`). -/
def Value.isContainer : Value → Bool
  | .map _ => true
  | .arr _ => true
  | _ => false

def SetOut.isErr : SetOut → Bool
  | .err _ _ => true
  | _ => false

/-- Mirrors the walk of `Config.Set` and decides whether, at some
non-final segment, the current value is neither a mapping nor a
sequence (the antecedent of claim C3).  The recursion descends exactly
as `setWalk` does, through resized or freshly created children, and is
`false` whenever the walk would instead error, abort, or reach the
final segment normally. -/
def hitsScalarMidWalk (c : Value) (ks : List String) : Bool :=
  match ks with
  | [] => false
  | [_] => false
  | k :: next :: rest =>
    match c with
    | .map es =>
      match mapGet es k with
      | some obj =>
        match resizeArray next obj with
        | some obj' => hitsScalarMidWalk obj' (next :: rest)
        | none => false
      | none =>
        match makeChild next with
        | some child => hitsScalarMidWalk child (next :: rest)
        | none => false
    | .arr xs =>
      match goAtoi k with
      | some i =>
        if 0 ≤ i ∧ i < (xs.length : Int) then
          match resizeArray next (arrGet xs i.toNat) with
          | some old' => hitsScalarMidWalk old' (next :: rest)
          | none => false
        else false
      | none => false
    | _ => true

/-- What one step of `Set` leaves of the current container's kind: a
mapping stays a mapping, a sequence keeps its length, a scalar is
returned untouched. -/
def shapeRel : Value → Value → Prop
  | .map _, c' => ∃ fs, c' = .map fs
  | .arr xs, c' => ∃ ys, c' = .arr ys ∧ ys.length = xs.length
  | c, c' => c' = c

/-! ## Helper lemmas: association lists and list updates -/

theorem mapGet_mapSet_self (es : List (String × Value)) (k : String) (v : Value) :
    mapGet (mapSet es k v) k = some v := by
  induction es with
  | nil => simp [mapSet, mapGet]
  | cons e rest ih =>
    obtain ⟨k', v'⟩ := e
    by_cases h : k' = k <;> simp [mapSet, mapGet, h, ih]

theorem mapGet_mapSet_ne (es : List (String × Value)) (k k' : String) (v : Value)
    (h : k' ≠ k) : mapGet (mapSet es k v) k' = mapGet es k' := by
  have h' : k ≠ k' := fun he => h he.symm
  induction es with
  | nil => simp [mapSet, mapGet, h']
  | cons e rest ih =>
    obtain ⟨k0, v0⟩ := e
    by_cases h0 : k0 = k
    · subst h0
      simp [mapSet, mapGet, h']
    · simp only [mapSet, if_neg h0]
      simp [mapGet, ih]

theorem mapSet_self (es : List (String × Value)) (k : String) (v : Value)
    (h : mapGet es k = some v) : mapSet es k v = es := by
  induction es with
  | nil => simp [mapGet] at h
  | cons e rest ih =>
    obtain ⟨k', v'⟩ := e
    by_cases h0 : k' = k
    · subst h0
      simp [mapGet] at h
      simp [mapSet, h]
    · simp [mapGet, h0] at h
      simp [mapSet, h0, ih h]

theorem lget_set_eq {α : Type} (xs : List α) :
    ∀ (i : Nat) (v : α), i < xs.length → (xs.set i v).get? i = some v := by
  induction xs with
  | nil => intro i v h; simp at h
  | cons x rest ih =>
    intro i v h
    cases i with
    | zero => simp [List.set]
    | succ j =>
      simp only [List.set, List.get?]
      exact ih j v (by simpa using h)

theorem lget_set_ne {α : Type} (xs : List α) :
    ∀ (i j : Nat) (v : α), i ≠ j → (xs.set i v).get? j = xs.get? j := by
  induction xs with
  | nil => intro i j v _; simp
  | cons x rest ih =>
    intro i j v h
    cases i with
    | zero =>
      cases j with
      | zero => exact absurd rfl h
      | succ j' => simp [List.set]
    | succ i' =>
      cases j with
      | zero => simp [List.set]
      | succ j' =>
        simp only [List.set, List.get?]
        exact ih i' j' v (fun he => h (by rw [he]))

theorem lgetD_eq_get? {α : Type} (xs : List α) :
    ∀ (i : Nat) (d : α), xs.getD i d = (xs.get? i).getD d := by
  induction xs with
  | nil => intro i d; cases i <;> simp [List.getD]
  | cons x rest ih =>
    intro i d
    cases i with
    | zero => simp [List.getD]
    | succ j => simpa [List.getD] using ih j d

theorem lset_getD_self {α : Type} (xs : List α) :
    ∀ (i : Nat) (d : α), i < xs.length → xs.set i (xs.getD i d) = xs := by
  induction xs with
  | nil => intro i d h; simp at h
  | cons x rest ih =>
    intro i d h
    cases i with
    | zero => simp [List.getD, List.set]
    | succ j =>
      simp only [List.getD] at *
      simp only [List.set, List.cons.injEq, true_and]
      exact ih j d (by simpa using h)

theorem lset_set {α : Type} (xs : List α) :
    ∀ (i : Nat) (a b : α), (xs.set i a).set i b = xs.set i b := by
  induction xs with
  | nil => intro i a b; simp
  | cons x rest ih =>
    intro i a b
    cases i with
    | zero => simp [List.set]
    | succ j => simp [List.set, ih]

/-! ## Basic facts about the walk -/

theorem setWalk_scalar (c : Value) (ks : List String) (v : Value) (pre : List String)
    (h : c.isContainer = false) : setWalk c ks v pre = .ok c [] [] := by
  cases c <;> simp [Value.isContainer] at h ⊢ <;>
    (cases ks with
     | nil => rfl
     | cons k rest => cases rest <;> rfl)

/-! ## Normalizer lemmas -/

theorem normIMap_err_of_key :
    ∀ (es : List (Raw × Raw)), (∃ kv ∈ es, ∀ s, kv.1 ≠ Raw.str s) →
    ∃ e, normIMap es = .error e := by
  intro es
  induction es with
  | nil => rintro ⟨kv, hmem, -⟩; cases hmem
  | cons hd tl ih =>
    rintro ⟨kv, hmem, hbad⟩
    obtain ⟨k, x⟩ := hd
    cases k with
    | str s =>
      have htl : kv ∈ tl := by
        rcases List.mem_cons.mp hmem with heq | htl
        · exact absurd (by rw [heq]) (hbad s)
        · exact htl
      cases hnx : normalizeValue x with
      | error e => exact ⟨"Unsupported map value", by simp [normIMap, hnx]⟩
      | ok v =>
        obtain ⟨e, he⟩ := ih ⟨kv, htl, hbad⟩
        exact ⟨e, by simp [normIMap, hnx, he]⟩
    | null => exact ⟨"Unsupported map key", by simp [normIMap]⟩
    | bool b => exact ⟨"Unsupported map key", by simp [normIMap]⟩
    | int n => exact ⟨"Unsupported map key", by simp [normIMap]⟩
    | float q => exact ⟨"Unsupported map key", by simp [normIMap]⟩
    | list xs => exact ⟨"Unsupported map key", by simp [normIMap]⟩
    | smap ms => exact ⟨"Unsupported map key", by simp [normIMap]⟩
    | imap ms => exact ⟨"Unsupported map key", by simp [normIMap]⟩

theorem normIMap_ok :
    ∀ (es : List (Raw × Raw)),
    (∀ kv ∈ es, (∃ s, kv.1 = Raw.str s) ∧ ∃ u, normalizeValue kv.2 = .ok u) →
    normIMap es = .ok (es.map fun kv => (rawKeyStr kv.1, normVal kv.2)) := by
  intro es
  induction es with
  | nil => intro _; simp [normIMap]
  | cons hd tl ih =>
    intro h
    obtain ⟨⟨s, hs⟩, ⟨u, hu⟩⟩ := h hd (List.mem_cons_self _ _)
    obtain ⟨k, x⟩ := hd
    simp only at hs hu
    subst hs
    have ihtl := ih (fun kv hkv => h kv (List.mem_cons_of_mem _ hkv))
    simp [normIMap, hu, ihtl, rawKeyStr, normVal]

/-! ## Claim theorems -/

/-- C1 is a code bug: `Set({}, "a.b.2.c", "x")` creates `a` as a mapping
and `b` as a 3-element sequence of absent values, but never turns
element 2 into a mapping holding `c`, stores nothing, and returns empty
`modified` and `added` with a nil error.  In the Go loop, the nil slot
left at element 2 (after `resizeArray` declines to touch it because
`"c"` is not numeric) matches no `switch` case, so the remaining
segments are silently skipped. -/
theorem c1_actual_behavior :
    goSet (.map []) "a.b.2.c" (.str "x") =
      .ok (.map [("a", .map [("b", .arr [.null, .null, .null])])]) [] [] := by
  decide

/-- C4 is a code bug: a path segment parsing as a negative integer
aborts rather than returning an `IndexOutOfRangeError`.  `Get` checks
only `int(i) < len(c)` before indexing `c[i]`, so `Get([1,2,3], "-1")`
hits the Go slice-index abort; `Set`, seeing a next segment `-2` under
an absent key, calls `makeArray(-1)`, a `make` with negative length. -/
theorem c4_negative_index_aborts :
    goGet (.arr [.int 1, .int 2, .int 3]) "-1" = .crash ∧
    goSet (.map []) "a.-2.b" .null = .crash := by
  constructor
  · decide
  · decide

/-- C7 (confirmed): for every root and value, `Set` on a path whose
trimmed form is empty replaces the whole root with the value, records
`added[""] = value`, and leaves `modified` empty — also when the call
overwrites an existing root. -/
theorem c7_empty_path_replaces_root (root : Value) (p : String) (v : Value)
    (h : trimPath p = "") : goSet root p v = .ok v [] [("", v)] := by
  simp [goSet, h]

/-- Witness for C7 at a concrete overwrite: a scalar root and path ".". -/
theorem c7_empty_path_witness :
    goSet (.str "old") "." (.int 3) = .ok (.int 3) [] [("", .int 3)] :=
  c7_empty_path_replaces_root (.str "old") "." (.int 3) (by decide)

/-- Counterexample to C2 as stated: `Set` can return without error yet
leave `Get` on the same path failing.  Three instances: a walk that
falls through a string scalar mid-path; a trailing-dot path that `Set`
trims but `Get` rejects; a path whose trimmed form keeps a leading dot,
which `Set` stores under an empty first key but `Get` drops. -/
theorem c2_counterexample :
    (goSet (.map [("a", .str "s")]) "a.b" (.bool true) =
        .ok (.map [("a", .str "s")]) [] [] ∧
      (goGet (.map [("a", .str "s")]) "a.b").isErr = true) ∧
    (goSet (.map []) "a." (.bool true) =
        .ok (.map [("a", .bool true)]) [] [("a", .bool true)] ∧
      (goGet (.map [("a", .bool true)]) "a.").isErr = true) ∧
    (goSet (.map []) " .a" (.bool true) =
        .ok (.map [("", .map [("a", .bool true)])]) [] [(".a", .bool true)] ∧
      (goGet (.map [("", .map [("a", .bool true)])]) " .a").isErr = true) := by
  refine ⟨⟨?_, ?_⟩, ⟨?_, ?_⟩, ⟨?_, ?_⟩⟩ <;> decide

/-- Counterexample to C3 as stated: when the original root is a scalar,
the root-reset entry survives in `modified`, so the returned `modified`
map is not empty even though the walk fell through a nil slot. -/
theorem c3_counterexample :
    goSet (.str "s") "a.0.b.c" (.bool true) =
      .ok (.map [("a", .arr [.null])]) [("", .str "s")] [] := by
  decide

/-- Counterexample to C5 as stated: an unset (nil) root is replaced by
an empty mapping silently, with no `modified[""]` record; and when the
walk later errors, the bookkeeping (including the root-reset entry of a
scalar root) is discarded, the Go method returning nil maps. -/
theorem c5_counterexample :
    goSet .null "a" (.bool true) =
      .ok (.map [("a", .bool true)]) [] [("a", .bool true)] ∧
    (goSet (.str "s") "a.-1.x" (.bool true)).isErr = true := by
  constructor
  · decide
  · decide

/-- Counterexample to C6 as stated: two violations of second-call
emptiness.  A path trimming to empty re-reports `added[""]` on every
call; and writing the absent value into a sequence slot re-reports
`added` on every call, because the Go code tests `v[arrIndex] == nil`
before the deep-equality test. -/
theorem c6_counterexample :
    (goSet (.map []) "." (.bool true) = .ok (.bool true) [] [("", .bool true)] ∧
      goSet (.bool true) "." (.bool true) = .ok (.bool true) [] [("", .bool true)]) ∧
    goSet (.map [("a", .arr [.null])]) "a.0" .null =
      .ok (.map [("a", .arr [.null])]) [] [("a.0", .null)] := by
  refine ⟨⟨?_, ?_⟩, ?_⟩ <;> decide

/-- Counterexample to C8 as stated: the written value replaces the
target slot wholesale, so a Sequence present before and after at the
target position can shrink: overwriting `list` (length 3) with an empty
sequence leaves it at length 0. -/
theorem c8_counterexample :
    goSet (.map [("list", .arr [.int 1, .int 2, .int 3])]) "list" (.arr []) =
      .ok (.map [("list", .arr [])]) [("list", .arr [.int 1, .int 2, .int 3])] [] ∧
    subtree (.map [("list", .arr [.int 1, .int 2, .int 3])]) [.key "list"] =
      some (.arr [.int 1, .int 2, .int 3]) ∧
    subtree (.map [("list", .arr [])]) [.key "list"] = some (.arr []) := by
  refine ⟨?_, ?_, ?_⟩ <;> decide

/-- C9 (confirmed): the `Int` accessor returns 42 for the stored string
"42", fails with a conversion error for the stored float 42.5, and
returns 42 for the stored float 42.0; in general a stored float is
accepted exactly when truncating it to `int` and printing both yields
the same text. -/
theorem c9_int_accessor :
    cfgInt (.map [("x", .str "42")]) "x" = .ok 42 ∧
    (cfgInt (.map [("y", .float ratFortyTwoPointFive)]) "y").isErr = true ∧
    ratFortyTwoPointFive = 85 / 2 ∧
    cfgInt (.map [("z", .float (42 : ℚ))]) "z" = .ok 42 ∧
    (∀ (root : Value) (path : String) (q : ℚ), goGet root path = .ok (.float q) →
      (cfgInt root path = .ok (goTrunc q) ↔
        goSprintInt (goTrunc q) = goSprintFloat q)) := by
  refine ⟨by decide, by decide, ?_, by decide, ?_⟩
  · rw [ratFortyTwoPointFive, Rat.mk'_eq_divInt, Rat.divInt_eq_div]
    norm_num
  · intro root path q h
    constructor
    · intro hok
      by_contra hns
      simp [cfgInt, h, hns] at hok
    · intro hs
      simp [cfgInt, h, hs]

/-- Witness for C9, instantiating the general float clause at the
stored float 42.0, where the round-trip text test succeeds. -/
theorem c9_int_accessor_witness :
    cfgInt (.map [("z", .float (42 : ℚ))]) "z" = .ok (goTrunc (42 : ℚ)) :=
  (c9_int_accessor.2.2.2.2 (.map [("z", .float (42 : ℚ))]) "z" 42 (by decide)).mpr
    (by decide)

/-- C10 (confirmed): the normalizer rejects an arbitrarily-keyed raw
mapping whenever some key is not a string; when every key is a string
and every entry value normalizes, it returns the mapping of the
recursively normalized values; and boolean, float, string and null
scalars pass through unchanged. -/
theorem c10_normalize_imap :
    (∀ (es : List (Raw × Raw)), (∃ kv ∈ es, ∀ s, kv.1 ≠ Raw.str s) →
      ∃ e, normalizeValue (.imap es) = .error e) ∧
    (∀ (es : List (Raw × Raw)),
      (∀ kv ∈ es, (∃ s, kv.1 = Raw.str s) ∧ ∃ u, normalizeValue kv.2 = .ok u) →
      normalizeValue (.imap es) =
        .ok (.map (es.map fun kv => (rawKeyStr kv.1, normVal kv.2)))) ∧
    (∀ b, normalizeValue (.bool b) = .ok (.bool b)) ∧
    (∀ q, normalizeValue (.float q) = .ok (.float q)) ∧
    (∀ s, normalizeValue (.str s) = .ok (.str s)) ∧
    normalizeValue .null = .ok .null := by
  refine ⟨?_, ?_, fun b => rfl, fun q => rfl, fun s => rfl, rfl⟩
  · intro es h
    obtain ⟨e, he⟩ := normIMap_err_of_key es h
    exact ⟨e, by simp [normalizeValue, he]⟩
  · intro es h
    simp [normalizeValue, normIMap_ok es h]

/-- Witness for C10: a non-string key is rejected; an all-string-keyed
map normalizes to the mapping of its normalized values. -/
theorem c10_normalize_imap_witness :
    (∃ e, normalizeValue (.imap [(Raw.int 1, Raw.null)]) = .error e) ∧
    normalizeValue (.imap [(Raw.str "k", Raw.bool true)]) =
      .ok (.map [("k", .bool true)]) := by
  constructor
  · exact c10_normalize_imap.1 [(Raw.int 1, Raw.null)]
      ⟨(Raw.int 1, Raw.null), List.mem_cons_self _ _, fun s h => by cases h⟩
  · have := c10_normalize_imap.2.1 [(Raw.str "k", Raw.bool true)]
      (fun kv hkv => by
        rcases List.mem_cons.mp hkv with heq | habs
        · subst heq
          exact ⟨⟨"k", rfl⟩, ⟨.bool true, rfl⟩⟩
        · cases habs)
    simpa [rawKeyStr, normVal, normalizeValue] using this


/-! ## Kind preservation along the walk -/

theorem arrGet_of_lt (xs : List Value) (i : Nat) (h : i < xs.length) :
    xs.get? i = some (arrGet xs i) := by
  simp only [arrGet]
  cases hg : xs.get? i with
  | some w => rfl
  | none =>
    exfalso
    rw [List.get?_eq_none] at hg
    omega

theorem arrGet_set_eq (xs : List Value) (i : Nat) (v : Value) (h : i < xs.length) :
    arrGet (xs.set i v) i = v := by
  rw [arrGet, lget_set_eq xs i v h]

theorem set_arrGet_self (xs : List Value) (i : Nat) (h : i < xs.length) :
    xs.set i (arrGet xs i) = xs := by
  have hg := arrGet_of_lt xs i h
  have := lset_getD_self xs i Value.null h
  rw [lgetD_eq_get?, hg] at this
  simpa using this

theorem setWalk_shape (ks : List String) (c v : Value) (pre : List String) :
    shapeRel c (setWalk c ks v pre).val ∨ setWalk c ks v pre = .crash := by
  cases ks with
  | nil => left; cases c <;> simp [setWalk, SetOut.val, shapeRel]
  | cons k rest =>
    cases rest with
    | nil =>
      cases c with
      | map es =>
        left
        simp only [setWalk]
        split
        · split <;> simp [SetOut.val, shapeRel]
        · simp [SetOut.val, shapeRel]
      | arr xs =>
        left
        simp only [setWalk]
        split
        · split
          · split
            · simp [SetOut.val, shapeRel, List.length_set]
            · split <;> simp [SetOut.val, shapeRel, List.length_set]
          · simp [SetOut.val, shapeRel]
        · simp [SetOut.val, shapeRel]
      | null => left; simp [setWalk, SetOut.val, shapeRel]
      | bool b => left; simp [setWalk, SetOut.val, shapeRel]
      | int n => left; simp [setWalk, SetOut.val, shapeRel]
      | float q => left; simp [setWalk, SetOut.val, shapeRel]
      | str s => left; simp [setWalk, SetOut.val, shapeRel]
    | cons next rest2 =>
      cases c with
      | map es =>
        simp only [setWalk]
        split
        · split
          · right; rfl
          · cases hw : setWalk _ (next :: rest2) v (pre ++ [k]) with
            | ok c2 m a => left; simp [reattachMap, SetOut.val, shapeRel]
            | err c2 msg => left; simp [reattachMap, SetOut.val, shapeRel]
            | crash => right; simp [reattachMap]
        · split
          · right; rfl
          · cases hw : setWalk _ (next :: rest2) v (pre ++ [k]) with
            | ok c2 m a => left; simp [reattachMap, SetOut.val, shapeRel]
            | err c2 msg => left; simp [reattachMap, SetOut.val, shapeRel]
            | crash => right; simp [reattachMap]
      | arr xs =>
        simp only [setWalk]
        split
        · split
          · split
            · right; rfl
            · cases hw : setWalk _ (next :: rest2) v (pre ++ [k]) with
              | ok c2 m a =>
                left; simp [reattachArr, SetOut.val, shapeRel, List.length_set]
              | err c2 msg =>
                left; simp [reattachArr, SetOut.val, shapeRel, List.length_set]
              | crash => right; simp [reattachArr]
          · left; simp [SetOut.val, shapeRel]
        · left; simp [SetOut.val, shapeRel]
      | null => left; simp [setWalk, SetOut.val, shapeRel]
      | bool b => left; simp [setWalk, SetOut.val, shapeRel]
      | int n => left; simp [setWalk, SetOut.val, shapeRel]
      | float q => left; simp [setWalk, SetOut.val, shapeRel]
      | str s => left; simp [setWalk, SetOut.val, shapeRel]

theorem setWalk_shape_of_ok (ks : List String) (c v : Value) (pre : List String)
    (c' : Value) (m a : List (String × Value))
    (h : setWalk c ks v pre = .ok c' m a) : shapeRel c c' := by
  have := setWalk_shape ks c v pre
  rcases this with hs | hc
  · rw [h] at hs; exact hs
  · rw [h] at hc; cases hc

theorem setWalk_arr_bounds (xs : List Value) (k : String) (rest : List String)
    (v : Value) (pre : List String) (c' : Value) (m a : List (String × Value))
    (h : setWalk (.arr xs) (k :: rest) v pre = .ok c' m a) :
    ∃ i, goAtoi k = some i ∧ 0 ≤ i ∧ i < (xs.length : Int) := by
  cases rest with
  | nil =>
    simp only [setWalk] at h
    split at h
    · next i hp =>
      split at h
      · next hb => exact ⟨i, hp, hb⟩
      · cases h
    · cases h
  | cons next rest2 =>
    simp only [setWalk] at h
    split at h
    · next i hp =>
      split at h
      · next hb => exact ⟨i, hp, hb⟩
      · cases h
    · cases h

theorem resizeArray_numeric_not_null (next : String) (n : Int) (obj obj' : Value)
    (hn : goAtoi next = some n) (hr : resizeArray next obj = some obj') :
    obj' ≠ .null := by
  intro hcontra
  subst hcontra
  cases obj with
  | null =>
    simp only [resizeArray, hn] at hr
    split at hr
    · cases hr
    · simp at hr
  | arr xs =>
    simp only [resizeArray, hn] at hr
    split at hr <;> simp at hr
  | bool b => simp [resizeArray, hn] at hr
  | int m => simp [resizeArray, hn] at hr
  | float q => simp [resizeArray, hn] at hr
  | str t => simp [resizeArray, hn] at hr
  | map es => simp [resizeArray, hn] at hr

theorem makeChild_numeric_arr (next : String) (n : Int) (child : Value)
    (hn : goAtoi next = some n) (hm : makeChild next = some child) :
    child = .arr (List.replicate (n + 1).toNat .null) := by
  simp only [makeChild, hn] at hm
  split at hm
  · cases hm
  · injection hm with h1; exact h1.symm

theorem resize_after_walk (next : String) (rest : List String) (obj' : Value)
    (v : Value) (pre : List String) (c' : Value) (m a : List (String × Value))
    (h0 : ∀ n, goAtoi next = some n → obj' ≠ .null)
    (hw : setWalk obj' (next :: rest) v pre = .ok c' m a) :
    resizeArray next c' = some c' := by
  cases hn : goAtoi next with
  | none => simp [resizeArray, hn]
  | some n =>
    have hnn := h0 n hn
    have hsh := setWalk_shape_of_ok (next :: rest) obj' v pre c' m a hw
    cases obj' with
    | null => exact absurd rfl hnn
    | arr xs =>
      obtain ⟨i, hpi, hge, hlt⟩ := setWalk_arr_bounds xs next rest v pre c' m a hw
      rw [hn] at hpi
      injection hpi with hin
      subst hin
      obtain ⟨ys, hys, hlen⟩ := hsh
      subst hys
      simp only [resizeArray, hn]
      rw [if_neg (by rw [hlen]; omega)]
    | map es =>
      obtain ⟨fs, hfs⟩ := hsh
      subst hfs
      simp [resizeArray, hn]
    | bool b =>
      have hsc := setWalk_scalar (.bool b) (next :: rest) v pre (by simp [Value.isContainer])
      rw [hsc] at hw
      injection hw with h1 h2 h3
      rw [← h1]
      simp [resizeArray, hn]
    | int k =>
      have hsc := setWalk_scalar (.int k) (next :: rest) v pre (by simp [Value.isContainer])
      rw [hsc] at hw
      injection hw with h1 h2 h3
      rw [← h1]
      simp [resizeArray, hn]
    | float q =>
      have hsc := setWalk_scalar (.float q) (next :: rest) v pre (by simp [Value.isContainer])
      rw [hsc] at hw
      injection hw with h1 h2 h3
      rw [← h1]
      simp [resizeArray, hn]
    | str t =>
      have hsc := setWalk_scalar (.str t) (next :: rest) v pre (by simp [Value.isContainer])
      rw [hsc] at hw
      injection hw with h1 h2 h3
      rw [← h1]
      simp [resizeArray, hn]


/-! ## One-step equations for the walk -/

theorem setWalk_nil (c v : Value) (pre : List String) :
    setWalk c [] v pre = .ok c [] [] := rfl

theorem setWalk_fin_map (es : List (String × Value)) (k : String) (v : Value)
    (pre : List String) :
    setWalk (.map es) [k] v pre =
      (match mapGet es k with
       | some obj =>
         if obj = v then .ok (.map es) [] []
         else .ok (.map (mapSet es k v)) [(joinDot (pre ++ [k]), obj)] []
       | none => .ok (.map (mapSet es k v)) [] [(joinDot (pre ++ [k]), v)]) := rfl

theorem setWalk_fin_arr (xs : List Value) (k : String) (v : Value)
    (pre : List String) :
    setWalk (.arr xs) [k] v pre =
      (match goAtoi k with
       | some i =>
         if 0 ≤ i ∧ i < (xs.length : Int) then
           if arrGet xs i.toNat = .null then
             .ok (.arr (xs.set i.toNat v)) [] [(joinDot (pre ++ [k]), arrGet xs i.toNat)]
           else if arrGet xs i.toNat = v then .ok (.arr xs) [] []
           else .ok (.arr (xs.set i.toNat v)) [(joinDot (pre ++ [k]), arrGet xs i.toNat)] []
         else .err (.arr xs) ("index out of bounds. " ++ joinDot (pre ++ [k]))
       | none => .err (.arr xs) ("object is array. index missmatch " ++ joinDot (pre ++ [k]))) := rfl

theorem setWalk_cons_map (es : List (String × Value)) (k next : String)
    (rest : List String) (v : Value) (pre : List String) :
    setWalk (.map es) (k :: next :: rest) v pre =
      (match mapGet es k with
       | some obj =>
         match resizeArray next obj with
         | none => .crash
         | some obj' => reattachMap es k (setWalk obj' (next :: rest) v (pre ++ [k]))
       | none =>
         match makeChild next with
         | none => .crash
         | some child => reattachMap es k (setWalk child (next :: rest) v (pre ++ [k]))) := rfl

theorem setWalk_cons_arr (xs : List Value) (k next : String)
    (rest : List String) (v : Value) (pre : List String) :
    setWalk (.arr xs) (k :: next :: rest) v pre =
      (match goAtoi k with
       | some i =>
         if 0 ≤ i ∧ i < (xs.length : Int) then
           match resizeArray next (arrGet xs i.toNat) with
           | none => .crash
           | some old' => reattachArr xs i.toNat (setWalk old' (next :: rest) v (pre ++ [k]))
         else .err (.arr xs) ("index out of bounds. " ++ joinDot (pre ++ [k]))
       | none => .err (.arr xs) ("object is array. index missmatch " ++ joinDot (pre ++ [k]))) := rfl

/-! ## Idempotence of the walk -/

theorem setWalk_idem (v : Value) (hv : v ≠ .null) :
    ∀ (ks : List String) (c : Value) (pre : List String)
      (c' : Value) (m a : List (String × Value)),
    setWalk c ks v pre = .ok c' m a → setWalk c' ks v pre = .ok c' [] [] := by
  intro ks
  induction ks with
  | nil =>
    intro c pre c' m a hw
    rw [setWalk_nil] at hw
    injection hw with h1 h2 h3
    subst h1
    exact setWalk_nil _ v pre
  | cons k rest ih =>
    intro c pre c' m a hw
    cases rest with
    | nil =>
      cases c with
      | map es =>
        rw [setWalk_fin_map] at hw
        cases hg : mapGet es k with
        | some obj =>
          rw [hg] at hw
          simp only [] at hw
          by_cases he : obj = v
          · rw [if_pos he] at hw
            injection hw with h1 h2 h3
            subst h1
            rw [setWalk_fin_map, hg]
            simp [he]
          · rw [if_neg he] at hw
            injection hw with h1 h2 h3
            subst h1
            rw [setWalk_fin_map, mapGet_mapSet_self]
            simp
        | none =>
          rw [hg] at hw
          simp only [] at hw
          injection hw with h1 h2 h3
          subst h1
          rw [setWalk_fin_map, mapGet_mapSet_self]
          simp
      | arr xs =>
        rw [setWalk_fin_arr] at hw
        cases hpi : goAtoi k with
        | some i =>
          rw [hpi] at hw
          simp only [] at hw
          by_cases hb : 0 ≤ i ∧ i < (xs.length : Int)
          · rw [if_pos hb] at hw
            have hlt : i.toNat < xs.length := by omega
            by_cases h0 : arrGet xs i.toNat = .null
            · rw [if_pos h0] at hw
              injection hw with h1 h2 h3
              subst h1
              rw [setWalk_fin_arr, hpi]
              simp only []
              rw [if_pos (by rw [List.length_set]; exact hb)]
              rw [arrGet_set_eq xs i.toNat v hlt]
              rw [if_neg hv, if_pos rfl]
            · rw [if_neg h0] at hw
              by_cases he : arrGet xs i.toNat = v
              · rw [if_pos he] at hw
                injection hw with h1 h2 h3
                subst h1
                rw [setWalk_fin_arr, hpi]
                simp only []
                rw [if_pos hb, if_neg h0, if_pos he]
              · rw [if_neg he] at hw
                injection hw with h1 h2 h3
                subst h1
                rw [setWalk_fin_arr, hpi]
                simp only []
                rw [if_pos (by rw [List.length_set]; exact hb)]
                rw [arrGet_set_eq xs i.toNat v hlt]
                rw [if_neg hv, if_pos rfl]
          · rw [if_neg hb] at hw
            cases hw
        | none =>
          rw [hpi] at hw
          simp only [] at hw
          cases hw
      | null =>
        rw [setWalk_scalar _ _ _ _ (by simp [Value.isContainer])] at hw
        injection hw with h1 h2 h3
        subst h1
        exact setWalk_scalar _ _ _ _ (by simp [Value.isContainer])
      | bool b =>
        rw [setWalk_scalar _ _ _ _ (by simp [Value.isContainer])] at hw
        injection hw with h1 h2 h3
        subst h1
        exact setWalk_scalar _ _ _ _ (by simp [Value.isContainer])
      | int n =>
        rw [setWalk_scalar _ _ _ _ (by simp [Value.isContainer])] at hw
        injection hw with h1 h2 h3
        subst h1
        exact setWalk_scalar _ _ _ _ (by simp [Value.isContainer])
      | float q =>
        rw [setWalk_scalar _ _ _ _ (by simp [Value.isContainer])] at hw
        injection hw with h1 h2 h3
        subst h1
        exact setWalk_scalar _ _ _ _ (by simp [Value.isContainer])
      | str t =>
        rw [setWalk_scalar _ _ _ _ (by simp [Value.isContainer])] at hw
        injection hw with h1 h2 h3
        subst h1
        exact setWalk_scalar _ _ _ _ (by simp [Value.isContainer])
    | cons next rest2 =>
      cases c with
      | map es =>
        rw [setWalk_cons_map] at hw
        cases hg : mapGet es k with
        | some obj =>
          rw [hg] at hw
          simp only [] at hw
          cases hr : resizeArray next obj with
          | none => rw [hr] at hw; simp only [] at hw; cases hw
          | some obj' =>
            rw [hr] at hw
            simp only [] at hw
            cases hws : setWalk obj' (next :: rest2) v (pre ++ [k]) with
            | ok g m2 a2 =>
              rw [hws] at hw
              simp only [reattachMap] at hw
              injection hw with h1 h2 h3
              subst h1
              have hidem := ih obj' (pre ++ [k]) g m2 a2 hws
              have hrz : resizeArray next g = some g :=
                resize_after_walk next rest2 obj' v (pre ++ [k]) g m2 a2
                  (fun n hn => resizeArray_numeric_not_null next n obj obj' hn hr) hws
              rw [setWalk_cons_map, mapGet_mapSet_self]
              simp only []
              rw [hrz]
              simp only []
              rw [hidem]
              simp only [reattachMap]
              rw [mapSet_self _ _ _ (mapGet_mapSet_self es k g)]
            | err g msg => rw [hws] at hw; simp only [reattachMap] at hw; cases hw
            | crash => rw [hws] at hw; simp only [reattachMap] at hw; cases hw
        | none =>
          rw [hg] at hw
          simp only [] at hw
          cases hc : makeChild next with
          | none => rw [hc] at hw; simp only [] at hw; cases hw
          | some child =>
            rw [hc] at hw
            simp only [] at hw
            cases hws : setWalk child (next :: rest2) v (pre ++ [k]) with
            | ok g m2 a2 =>
              rw [hws] at hw
              simp only [reattachMap] at hw
              injection hw with h1 h2 h3
              subst h1
              have hidem := ih child (pre ++ [k]) g m2 a2 hws
              have hcnn : ∀ n, goAtoi next = some n → child ≠ .null := by
                intro n hn
                rw [makeChild_numeric_arr next n child hn hc]
                simp
              have hrz : resizeArray next g = some g :=
                resize_after_walk next rest2 child v (pre ++ [k]) g m2 a2 hcnn hws
              rw [setWalk_cons_map, mapGet_mapSet_self]
              simp only []
              rw [hrz]
              simp only []
              rw [hidem]
              simp only [reattachMap]
              rw [mapSet_self _ _ _ (mapGet_mapSet_self es k g)]
            | err g msg => rw [hws] at hw; simp only [reattachMap] at hw; cases hw
            | crash => rw [hws] at hw; simp only [reattachMap] at hw; cases hw
      | arr xs =>
        rw [setWalk_cons_arr] at hw
        cases hpi : goAtoi k with
        | some i =>
          rw [hpi] at hw
          simp only [] at hw
          by_cases hb : 0 ≤ i ∧ i < (xs.length : Int)
          · rw [if_pos hb] at hw
            have hlt : i.toNat < xs.length := by omega
            cases hr : resizeArray next (arrGet xs i.toNat) with
            | none => rw [hr] at hw; simp only [] at hw; cases hw
            | some old' =>
              rw [hr] at hw
              simp only [] at hw
              cases hws : setWalk old' (next :: rest2) v (pre ++ [k]) with
              | ok g m2 a2 =>
                rw [hws] at hw
                simp only [reattachArr] at hw
                injection hw with h1 h2 h3
                subst h1
                have hidem := ih old' (pre ++ [k]) g m2 a2 hws
                have hrz : resizeArray next g = some g :=
                  resize_after_walk next rest2 old' v (pre ++ [k]) g m2 a2
                    (fun n hn =>
                      resizeArray_numeric_not_null next n (arrGet xs i.toNat) old' hn hr)
                    hws
                rw [setWalk_cons_arr, hpi]
                simp only []
                rw [if_pos (by rw [List.length_set]; exact hb)]
                rw [arrGet_set_eq xs i.toNat g hlt, hrz]
                simp only []
                rw [hidem]
                simp only [reattachArr]
                rw [lset_set]
              | err g msg => rw [hws] at hw; simp only [reattachArr] at hw; cases hw
              | crash => rw [hws] at hw; simp only [reattachArr] at hw; cases hw
          · rw [if_neg hb] at hw
            cases hw
        | none =>
          rw [hpi] at hw
          simp only [] at hw
          cases hw
      | null =>
        rw [setWalk_scalar _ _ _ _ (by simp [Value.isContainer])] at hw
        injection hw with h1 h2 h3
        subst h1
        exact setWalk_scalar _ _ _ _ (by simp [Value.isContainer])
      | bool b =>
        rw [setWalk_scalar _ _ _ _ (by simp [Value.isContainer])] at hw
        injection hw with h1 h2 h3
        subst h1
        exact setWalk_scalar _ _ _ _ (by simp [Value.isContainer])
      | int n =>
        rw [setWalk_scalar _ _ _ _ (by simp [Value.isContainer])] at hw
        injection hw with h1 h2 h3
        subst h1
        exact setWalk_scalar _ _ _ _ (by simp [Value.isContainer])
      | float q =>
        rw [setWalk_scalar _ _ _ _ (by simp [Value.isContainer])] at hw
        injection hw with h1 h2 h3
        subst h1
        exact setWalk_scalar _ _ _ _ (by simp [Value.isContainer])
      | str t =>
        rw [setWalk_scalar _ _ _ _ (by simp [Value.isContainer])] at hw
        injection hw with h1 h2 h3
        subst h1
        exact setWalk_scalar _ _ _ _ (by simp [Value.isContainer])


/-! ## Root handling -/

theorem rootFix_container (r : Value) : ((rootFix r).1).isContainer = true := by
  cases r <;> simp [rootFix, Value.isContainer]

theorem container_shape (c t : Value) (hc : c.isContainer = true)
    (hs : shapeRel c t) : t.isContainer = true := by
  cases c with
  | map es => obtain ⟨fs, hfs⟩ := hs; subst hfs; simp [Value.isContainer]
  | arr xs => obtain ⟨ys, hys, -⟩ := hs; subst hys; simp [Value.isContainer]
  | null => simp [Value.isContainer] at hc
  | bool b => simp [Value.isContainer] at hc
  | int n => simp [Value.isContainer] at hc
  | float q => simp [Value.isContainer] at hc
  | str s => simp [Value.isContainer] at hc

theorem rootInit_container (t : Value) (h : t.isContainer = true) :
    rootInit t = t := by
  cases t <;> simp [Value.isContainer] at h <;> simp [rootInit]

theorem rootFix_of_container (t : Value) (h : t.isContainer = true) :
    rootFix t = (t, []) := by
  cases t <;> simp [Value.isContainer] at h <;> simp [rootFix]

/-- C6 (corrected): for every root, every path with non-empty trimmed
form, and every value other than the absent value, a successful
`Set(root, P, V)` followed by the identical call yields, on the second
call, the unchanged root with empty `modified` and empty `added`. -/
theorem c6_set_idempotent (root : Value) (p : String) (v : Value)
    (t : Value) (m a : List (String × Value))
    (hp : trimPath p ≠ "") (hv : v ≠ .null)
    (h1 : goSet root p v = .ok t m a) : goSet t p v = .ok t [] [] := by
  simp only [goSet] at h1 ⊢
  rw [if_neg hp] at h1 ⊢
  cases hws : setWalk (rootFix (rootInit root)).1 (splitDot (trimPath p)) v [] with
  | ok t0 m0 a0 =>
    rw [hws] at h1
    simp only [] at h1
    injection h1 with h2 h3 h4
    subst h2
    have hcont : t0.isContainer = true :=
      container_shape _ _ (rootFix_container (rootInit root))
        (setWalk_shape_of_ok _ _ _ _ _ _ _ hws)
    have hid := setWalk_idem v hv (splitDot (trimPath p)) _ [] t0 m0 a0 hws
    simp only [rootInit_container _ hcont, rootFix_of_container _ hcont]
    rw [hid]
    simp
  | err t0 msg =>
    rw [hws] at h1
    simp only [] at h1
    cases h1
  | crash =>
    rw [hws] at h1
    simp only [] at h1
    cases h1

/-- Witness for C6 at a concrete input: setting `x.y` to `true` twice on
an initially empty mapping. -/
theorem c6_set_idempotent_witness :
    goSet (.map [("x", .map [("y", .bool true)])]) "x.y" (.bool true) =
      .ok (.map [("x", .map [("y", .bool true)])]) [] [] :=
  c6_set_idempotent (.map []) "x.y" (.bool true)
    (.map [("x", .map [("y", .bool true)])]) [] [("x.y", .bool true)]
    (by decide) (by decide) (by decide)


/-! ## Get equations and path facts -/

theorem getWalk_nil (c : Value) (pre : List String) : getWalk c [] pre = .ok c := rfl

theorem getWalk_cons_map (es : List (String × Value)) (part : String)
    (rest pre : List String) :
    getWalk (.map es) (part :: rest) pre =
      (match mapGet es part with
       | some v => getWalk v rest (pre ++ [part])
       | none => .err ("Nonexistent map key at " ++ joinDot (pre ++ [part]))) := rfl

theorem getWalk_cons_arr (xs : List Value) (part : String) (rest pre : List String) :
    getWalk (.arr xs) (part :: rest) pre =
      (match goAtoi part with
       | some i =>
         if i < (xs.length : Int) then
           if 0 ≤ i then getWalk (arrGet xs i.toNat) rest (pre ++ [part])
           else .crash
         else
           .err ("Index out of range at " ++ joinDot (pre ++ [part]) ++
             ": list has only " ++ toString xs.length ++ " items")
       | none => .err ("Invalid list index at " ++ joinDot (pre ++ [part]))) := rfl

theorem splitDotChars_ne_nil (cs : List Char) : splitDotChars cs ≠ [] := by
  cases cs with
  | nil => simp [splitDotChars]
  | cons c rest =>
    simp only [splitDotChars]
    split
    · simp
    · split <;> simp

theorem splitDot_ne_nil (s : String) : splitDot s ≠ [] := by
  simp only [splitDot]
  intro h
  exact splitDotChars_ne_nil s.data (List.map_eq_nil_iff.mp h)

theorem normParts_of_no_empty (ps : List String) (hne : ps ≠ [])
    (hs : "" ∉ ps) : normParts ps = some ps := by
  cases ps with
  | nil => exact absurd rfl hne
  | cons p0 rest =>
    have h0 : p0 ≠ "" := fun he => hs (by rw [he]; exact List.mem_cons_self _ _)
    have hr : rest.any (· = "") = false := by
      rw [List.any_eq_false]
      intro x hx
      simp only [decide_eq_true_eq]
      intro he
      exact hs (by rw [← he]; exact List.mem_cons_of_mem _ hx)
    simp [normParts, hr, h0]

theorem rootFix_snd_keys (r : Value) :
    (rootFix r).2 = [] ∨ ∃ w, (rootFix r).2 = [("", w)] := by
  cases r <;> simp [rootFix]

/-! ## A reported store is retrievable -/

theorem setWalk_store_get (v : Value) :
    ∀ (ks : List String) (c : Value) (pre : List String)
      (c' : Value) (m a : List (String × Value)),
    setWalk c ks v pre = .ok c' m a → (m ≠ [] ∨ a ≠ []) →
    ∀ pre2, getWalk c' ks pre2 = .ok v := by
  intro ks
  induction ks with
  | nil =>
    intro c pre c' m a hw hne pre2
    rw [setWalk_nil] at hw
    injection hw with h1 h2 h3
    rcases hne with h | h
    · exact absurd h2.symm h
    · exact absurd h3.symm h
  | cons k rest ih =>
    intro c pre c' m a hw hne pre2
    cases rest with
    | nil =>
      cases c with
      | map es =>
        rw [setWalk_fin_map] at hw
        cases hg : mapGet es k with
        | some obj =>
          rw [hg] at hw
          simp only [] at hw
          by_cases he : obj = v
          · rw [if_pos he] at hw
            injection hw with h1 h2 h3
            rcases hne with h | h
            · exact absurd h2.symm h
            · exact absurd h3.symm h
          · rw [if_neg he] at hw
            injection hw with h1 h2 h3
            subst h1
            rw [getWalk_cons_map, mapGet_mapSet_self]
            simp only []
            exact getWalk_nil v (pre2 ++ [k])
        | none =>
          rw [hg] at hw
          simp only [] at hw
          injection hw with h1 h2 h3
          subst h1
          rw [getWalk_cons_map, mapGet_mapSet_self]
          simp only []
          exact getWalk_nil v (pre2 ++ [k])
      | arr xs =>
        rw [setWalk_fin_arr] at hw
        cases hpi : goAtoi k with
        | some i =>
          rw [hpi] at hw
          simp only [] at hw
          by_cases hb : 0 ≤ i ∧ i < (xs.length : Int)
          · rw [if_pos hb] at hw
            have hlt : i.toNat < xs.length := by omega
            by_cases h0 : arrGet xs i.toNat = .null
            · rw [if_pos h0] at hw
              injection hw with h1 h2 h3
              subst h1
              rw [getWalk_cons_arr, hpi]
              simp only []
              rw [if_pos (by rw [List.length_set]; exact hb.2), if_pos hb.1]
              rw [arrGet_set_eq xs i.toNat v hlt]
              exact getWalk_nil v (pre2 ++ [k])
            · rw [if_neg h0] at hw
              by_cases he : arrGet xs i.toNat = v
              · rw [if_pos he] at hw
                injection hw with h1 h2 h3
                rcases hne with h | h
                · exact absurd h2.symm h
                · exact absurd h3.symm h
              · rw [if_neg he] at hw
                injection hw with h1 h2 h3
                subst h1
                rw [getWalk_cons_arr, hpi]
                simp only []
                rw [if_pos (by rw [List.length_set]; exact hb.2), if_pos hb.1]
                rw [arrGet_set_eq xs i.toNat v hlt]
                exact getWalk_nil v (pre2 ++ [k])
          · rw [if_neg hb] at hw
            cases hw
        | none =>
          rw [hpi] at hw
          simp only [] at hw
          cases hw
      | null =>
        rw [setWalk_scalar _ _ _ _ (by simp [Value.isContainer])] at hw
        injection hw with h1 h2 h3
        rcases hne with h | h
        · exact absurd h2.symm h
        · exact absurd h3.symm h
      | bool b =>
        rw [setWalk_scalar _ _ _ _ (by simp [Value.isContainer])] at hw
        injection hw with h1 h2 h3
        rcases hne with h | h
        · exact absurd h2.symm h
        · exact absurd h3.symm h
      | int n =>
        rw [setWalk_scalar _ _ _ _ (by simp [Value.isContainer])] at hw
        injection hw with h1 h2 h3
        rcases hne with h | h
        · exact absurd h2.symm h
        · exact absurd h3.symm h
      | float q =>
        rw [setWalk_scalar _ _ _ _ (by simp [Value.isContainer])] at hw
        injection hw with h1 h2 h3
        rcases hne with h | h
        · exact absurd h2.symm h
        · exact absurd h3.symm h
      | str t =>
        rw [setWalk_scalar _ _ _ _ (by simp [Value.isContainer])] at hw
        injection hw with h1 h2 h3
        rcases hne with h | h
        · exact absurd h2.symm h
        · exact absurd h3.symm h
    | cons next rest2 =>
      cases c with
      | map es =>
        rw [setWalk_cons_map] at hw
        cases hg : mapGet es k with
        | some obj =>
          rw [hg] at hw
          simp only [] at hw
          cases hr : resizeArray next obj with
          | none => rw [hr] at hw; simp only [] at hw; cases hw
          | some obj' =>
            rw [hr] at hw
            simp only [] at hw
            cases hws : setWalk obj' (next :: rest2) v (pre ++ [k]) with
            | ok g m2 a2 =>
              rw [hws] at hw
              simp only [reattachMap] at hw
              injection hw with h1 h2 h3
              subst h1
              subst h2
              subst h3
              rw [getWalk_cons_map, mapGet_mapSet_self]
              simp only []
              exact ih obj' (pre ++ [k]) g _ _ hws hne (pre2 ++ [k])
            | err g msg => rw [hws] at hw; simp only [reattachMap] at hw; cases hw
            | crash => rw [hws] at hw; simp only [reattachMap] at hw; cases hw
        | none =>
          rw [hg] at hw
          simp only [] at hw
          cases hc : makeChild next with
          | none => rw [hc] at hw; simp only [] at hw; cases hw
          | some child =>
            rw [hc] at hw
            simp only [] at hw
            cases hws : setWalk child (next :: rest2) v (pre ++ [k]) with
            | ok g m2 a2 =>
              rw [hws] at hw
              simp only [reattachMap] at hw
              injection hw with h1 h2 h3
              subst h1
              subst h2
              subst h3
              rw [getWalk_cons_map, mapGet_mapSet_self]
              simp only []
              exact ih child (pre ++ [k]) g _ _ hws hne (pre2 ++ [k])
            | err g msg => rw [hws] at hw; simp only [reattachMap] at hw; cases hw
            | crash => rw [hws] at hw; simp only [reattachMap] at hw; cases hw
      | arr xs =>
        rw [setWalk_cons_arr] at hw
        cases hpi : goAtoi k with
        | some i =>
          rw [hpi] at hw
          simp only [] at hw
          by_cases hb : 0 ≤ i ∧ i < (xs.length : Int)
          · rw [if_pos hb] at hw
            have hlt : i.toNat < xs.length := by omega
            cases hr : resizeArray next (arrGet xs i.toNat) with
            | none => rw [hr] at hw; simp only [] at hw; cases hw
            | some old' =>
              rw [hr] at hw
              simp only [] at hw
              cases hws : setWalk old' (next :: rest2) v (pre ++ [k]) with
              | ok g m2 a2 =>
                rw [hws] at hw
                simp only [reattachArr] at hw
                injection hw with h1 h2 h3
                subst h1
                subst h2
                subst h3
                rw [getWalk_cons_arr, hpi]
                simp only []
                rw [if_pos (by rw [List.length_set]; exact hb.2), if_pos hb.1]
                rw [arrGet_set_eq xs i.toNat g hlt]
                exact ih old' (pre ++ [k]) g _ _ hws hne (pre2 ++ [k])
              | err g msg => rw [hws] at hw; simp only [reattachArr] at hw; cases hw
              | crash => rw [hws] at hw; simp only [reattachArr] at hw; cases hw
          · rw [if_neg hb] at hw
            cases hw
        | none =>
          rw [hpi] at hw
          simp only [] at hw
          cases hw
      | null =>
        rw [setWalk_scalar _ _ _ _ (by simp [Value.isContainer])] at hw
        injection hw with h1 h2 h3
        rcases hne with h | h
        · exact absurd h2.symm h
        · exact absurd h3.symm h
      | bool b =>
        rw [setWalk_scalar _ _ _ _ (by simp [Value.isContainer])] at hw
        injection hw with h1 h2 h3
        rcases hne with h | h
        · exact absurd h2.symm h
        · exact absurd h3.symm h
      | int n =>
        rw [setWalk_scalar _ _ _ _ (by simp [Value.isContainer])] at hw
        injection hw with h1 h2 h3
        rcases hne with h | h
        · exact absurd h2.symm h
        · exact absurd h3.symm h
      | float q =>
        rw [setWalk_scalar _ _ _ _ (by simp [Value.isContainer])] at hw
        injection hw with h1 h2 h3
        rcases hne with h | h
        · exact absurd h2.symm h
        · exact absurd h3.symm h
      | str t =>
        rw [setWalk_scalar _ _ _ _ (by simp [Value.isContainer])] at hw
        injection hw with h1 h2 h3
        rcases hne with h | h
        · exact absurd h2.symm h
        · exact absurd h3.symm h

/-- C2 (corrected): if the trimmed path has no empty segments,
`Set(root, P, V)` returns without error, and the trimmed path is
reported in `added` or `modified`, then `Get` on the updated root with
the trimmed path succeeds and returns V. -/
theorem c2_get_after_set (root : Value) (p : String) (v : Value)
    (t : Value) (m a : List (String × Value))
    (hs : "" ∉ splitDot (trimPath p))
    (h1 : goSet root p v = .ok t m a)
    (hmem : trimPath p ∈ (m ++ a).map Prod.fst) :
    goGet t (trimPath p) = .ok v := by
  have hpne : trimPath p ≠ "" := by
    intro he
    rw [he] at hs
    exact hs (by decide)
  simp only [goSet] at h1
  rw [if_neg hpne] at h1
  cases hws : setWalk (rootFix (rootInit root)).1 (splitDot (trimPath p)) v [] with
  | ok t0 m0 a0 =>
    rw [hws] at h1
    simp only [] at h1
    injection h1 with h2 h3 h4
    subst h2
    subst h3
    subst h4
    have hne : m0 ≠ [] ∨ a0 ≠ [] := by
      by_contra hcon
      push_neg at hcon
      obtain ⟨hm0, ha0⟩ := hcon
      subst hm0
      subst ha0
      rcases rootFix_snd_keys (rootInit root) with hfz | ⟨w, hfw⟩
      · rw [hfz] at hmem
        simp at hmem
      · rw [hfw] at hmem
        simp at hmem
        exact hpne hmem
    have hget := setWalk_store_get v (splitDot (trimPath p)) _ [] t0 m0 a0 hws hne []
    simp only [goGet]
    rw [normParts_of_no_empty _ (splitDot_ne_nil _) hs]
    exact hget
  | err t0 msg =>
    rw [hws] at h1
    simp only [] at h1
    cases h1
  | crash =>
    rw [hws] at h1
    simp only [] at h1
    cases h1

/-- Witness for C2: storing `true` at key `x` in an empty mapping and
reading it back. -/
theorem c2_get_after_set_witness :
    goGet (.map [("x", .bool true)]) (trimPath "x") = .ok (.bool true) :=
  c2_get_after_set (.map []) "x" (.bool true)
    (.map [("x", .bool true)]) [] [("x", .bool true)]
    (by decide) (by decide) (by decide)


/-! ## The silent mid-walk fall-through -/

theorem hits_cons_map (es : List (String × Value)) (k next : String)
    (rest : List String) :
    hitsScalarMidWalk (.map es) (k :: next :: rest) =
      (match mapGet es k with
       | some obj =>
         match resizeArray next obj with
         | some obj' => hitsScalarMidWalk obj' (next :: rest)
         | none => false
       | none =>
         match makeChild next with
         | some child => hitsScalarMidWalk child (next :: rest)
         | none => false) := rfl

theorem hits_cons_arr (xs : List Value) (k next : String) (rest : List String) :
    hitsScalarMidWalk (.arr xs) (k :: next :: rest) =
      (match goAtoi k with
       | some i =>
         if 0 ≤ i ∧ i < (xs.length : Int) then
           match resizeArray next (arrGet xs i.toNat) with
           | some old' => hitsScalarMidWalk old' (next :: rest)
           | none => false
         else false
       | none => false) := rfl

theorem hits_scalar (c : Value) (h : c.isContainer = false) (k next : String)
    (rest : List String) : hitsScalarMidWalk c (k :: next :: rest) = true := by
  cases c <;> simp [Value.isContainer] at h <;> rfl

theorem getWalk_scalar_err (c : Value) (h : c.isContainer = false)
    (part : String) (rest pre : List String) :
    (getWalk c (part :: rest) pre).isErr = true := by
  cases c <;> simp [Value.isContainer] at h <;> simp [getWalk, GetOut.isErr]

theorem hits_walk (v : Value) :
    ∀ (ks : List String) (c : Value) (pre : List String),
    hitsScalarMidWalk c ks = true →
    ∃ c', setWalk c ks v pre = .ok c' [] [] ∧
      ∀ pre2, (getWalk c' ks pre2).isErr = true := by
  intro ks
  induction ks with
  | nil => intro c pre hh; cases hh
  | cons k rest ih =>
    intro c pre hh
    cases rest with
    | nil => cases hh
    | cons next rest2 =>
      cases c with
      | map es =>
        rw [hits_cons_map] at hh
        cases hg : mapGet es k with
        | some obj =>
          rw [hg] at hh
          simp only [] at hh
          cases hr : resizeArray next obj with
          | none => rw [hr] at hh; simp only [] at hh; cases hh
          | some obj' =>
            rw [hr] at hh
            simp only [] at hh
            obtain ⟨g, hwg, hgw⟩ := ih obj' (pre ++ [k]) hh
            refine ⟨.map (mapSet es k g), ?_, ?_⟩
            · rw [setWalk_cons_map, hg]
              simp only []
              rw [hr]
              simp only []
              rw [hwg]
              simp [reattachMap]
            · intro pre2
              rw [getWalk_cons_map, mapGet_mapSet_self]
              simp only []
              exact hgw (pre2 ++ [k])
        | none =>
          rw [hg] at hh
          simp only [] at hh
          cases hc : makeChild next with
          | none => rw [hc] at hh; simp only [] at hh; cases hh
          | some child =>
            rw [hc] at hh
            simp only [] at hh
            obtain ⟨g, hwg, hgw⟩ := ih child (pre ++ [k]) hh
            refine ⟨.map (mapSet es k g), ?_, ?_⟩
            · rw [setWalk_cons_map, hg]
              simp only []
              rw [hc]
              simp only []
              rw [hwg]
              simp [reattachMap]
            · intro pre2
              rw [getWalk_cons_map, mapGet_mapSet_self]
              simp only []
              exact hgw (pre2 ++ [k])
      | arr xs =>
        rw [hits_cons_arr] at hh
        cases hpi : goAtoi k with
        | some i =>
          rw [hpi] at hh
          simp only [] at hh
          by_cases hb : 0 ≤ i ∧ i < (xs.length : Int)
          · rw [if_pos hb] at hh
            have hlt : i.toNat < xs.length := by omega
            cases hr : resizeArray next (arrGet xs i.toNat) with
            | none => rw [hr] at hh; simp only [] at hh; cases hh
            | some old' =>
              rw [hr] at hh
              simp only [] at hh
              obtain ⟨g, hwg, hgw⟩ := ih old' (pre ++ [k]) hh
              refine ⟨.arr (xs.set i.toNat g), ?_, ?_⟩
              · rw [setWalk_cons_arr, hpi]
                simp only []
                rw [if_pos hb, hr]
                simp only []
                rw [hwg]
                simp [reattachArr]
              · intro pre2
                rw [getWalk_cons_arr, hpi]
                simp only []
                rw [if_pos (by rw [List.length_set]; exact hb.2), if_pos hb.1]
                rw [arrGet_set_eq xs i.toNat g hlt]
                exact hgw (pre2 ++ [k])
          · rw [if_neg hb] at hh
            cases hh
        | none =>
          rw [hpi] at hh
          simp only [] at hh
          cases hh
      | null =>
        refine ⟨.null, setWalk_scalar _ _ _ _ (by simp [Value.isContainer]), ?_⟩
        intro pre2
        exact getWalk_scalar_err _ (by simp [Value.isContainer]) _ _ _
      | bool b =>
        refine ⟨.bool b, setWalk_scalar _ _ _ _ (by simp [Value.isContainer]), ?_⟩
        intro pre2
        exact getWalk_scalar_err _ (by simp [Value.isContainer]) _ _ _
      | int n =>
        refine ⟨.int n, setWalk_scalar _ _ _ _ (by simp [Value.isContainer]), ?_⟩
        intro pre2
        exact getWalk_scalar_err _ (by simp [Value.isContainer]) _ _ _
      | float q =>
        refine ⟨.float q, setWalk_scalar _ _ _ _ (by simp [Value.isContainer]), ?_⟩
        intro pre2
        exact getWalk_scalar_err _ (by simp [Value.isContainer]) _ _ _
      | str t =>
        refine ⟨.str t, setWalk_scalar _ _ _ _ (by simp [Value.isContainer]), ?_⟩
        intro pre2
        exact getWalk_scalar_err _ (by simp [Value.isContainer]) _ _ _

/-- C3 (corrected): if `Set`, walking a non-empty trimmed path without
empty segments, meets at a non-final segment a current value that is
neither a Mapping nor a Sequence, it returns a nil error, an empty
`added`, and a `modified` that holds exactly the root-reset entries
(the entry `"" -> old root` when the original root was a non-nil
scalar, nothing otherwise), and the given value is not stored: `Get`
on the resulting root with the same trimmed path fails. -/
theorem c3_mid_walk_scalar (root : Value) (p : String) (v : Value)
    (hpne : trimPath p ≠ "")
    (hs : "" ∉ splitDot (trimPath p))
    (hh : hitsScalarMidWalk (rootFix (rootInit root)).1 (splitDot (trimPath p)) = true) :
    ∃ t, goSet root p v = .ok t (rootFix (rootInit root)).2 [] ∧
      (goGet t (trimPath p)).isErr = true := by
  obtain ⟨t, hw, hgw⟩ := hits_walk v (splitDot (trimPath p)) _ [] hh
  refine ⟨t, ?_, ?_⟩
  · simp only [goSet]
    rw [if_neg hpne, hw]
    simp
  · simp only [goGet]
    rw [normParts_of_no_empty _ (splitDot_ne_nil _) hs]
    exact hgw []

/-- Witness for C3: root `{"a": "s"}` and path `a.b.c` — the walk hits
the string scalar at the non-final segment `b`. -/
theorem c3_mid_walk_scalar_witness :
    ∃ t, goSet (.map [("a", .str "s")]) "a.b.c" (.bool true) =
        .ok t (rootFix (rootInit (.map [("a", .str "s")]))).2 [] ∧
      (goGet t (trimPath "a.b.c")).isErr = true :=
  c3_mid_walk_scalar (.map [("a", .str "s")]) "a.b.c" (.bool true)
    (by decide) (by decide) (by decide)


/-! ## C5: the root-reset rule -/

/-- C5 (corrected): for a root that is a non-nil scalar and a path with
non-empty trimmed form, `Set` replaces the root by a fresh empty
Mapping before navigating: the whole call equals the walk started at
the empty mapping, with the root-reset entry `"" -> old root` prepended
to `modified` on success; on error the bookkeeping is discarded (the Go
method returns nil maps), and a nil root is covered by the
counterexample: it is replaced silently. -/
theorem c5_root_reset (root : Value) (p : String) (v : Value)
    (hroot : root.isContainer = false) (hnn : root ≠ .null)
    (hp : trimPath p ≠ "") :
    goSet root p v =
      (match setWalk (.map []) (splitDot (trimPath p)) v [] with
       | .ok t m a => .ok t (("", root) :: m) a
       | .err t msg => .err t msg
       | .crash => .crash) := by
  have h1 : rootInit root = root := by simp [rootInit, hnn]
  have h2 : rootFix root = (.map [], [("", root)]) := by
    cases root with
    | null => exact absurd rfl hnn
    | bool b => rfl
    | int n => rfl
    | float q => rfl
    | str s => rfl
    | arr xs => simp [Value.isContainer] at hroot
    | map es => simp [Value.isContainer] at hroot
  simp only [goSet]
  rw [if_neg hp, h1, h2]
  simp only []
  cases hws : setWalk (.map []) (splitDot (trimPath p)) v [] with
  | ok t m a => simp
  | err t msg => simp
  | crash => simp

/-- Witness for C5 at the scalar root `"s"` and path `"a"`. -/
theorem c5_root_reset_witness :
    goSet (.str "s") "a" (.int 1) =
      (match setWalk (.map []) (splitDot (trimPath "a")) (.int 1) [] with
       | .ok t m a => .ok t (("", .str "s") :: m) a
       | .err t msg => .err t msg
       | .crash => .crash) :=
  c5_root_reset (.str "s") "a" (.int 1) (by decide) (by decide) (by decide)

/-! ## Subtree positions -/

theorem subtree_nil (t : Value) : subtree t [] = some t := by
  cases t <;> rfl

theorem subtree_key (es : List (String × Value)) (k : String) (p : List Step) :
    subtree (.map es) (.key k :: p) =
      (match mapGet es k with
       | some w => subtree w p
       | none => none) := rfl

theorem subtree_idx (xs : List Value) (i : Nat) (p : List Step) :
    subtree (.arr xs) (.idx i :: p) =
      (match xs.get? i with
       | some w => subtree w p
       | none => none) := rfl

theorem subtree_map_idx (es : List (String × Value)) (i : Nat) (p : List Step) :
    subtree (.map es) (.idx i :: p) = none := rfl

theorem subtree_arr_key (xs : List Value) (k : String) (p : List Step) :
    subtree (.arr xs) (.key k :: p) = none := rfl

theorem subtree_scalar (c : Value) (h : c.isContainer = false)
    (st : Step) (p : List Step) : subtree c (st :: p) = none := by
  cases c <;> simp [Value.isContainer] at h <;> cases st <;> rfl

theorem len_le_of_same (xs ys : List Value) (S : Option Value)
    (h1 : S = some (.arr xs)) (h2 : S = some (.arr ys)) :
    xs.length ≤ ys.length := by
  rw [h1] at h2
  injection h2 with h
  injection h with h
  exact Nat.le_of_eq (by rw [h])

theorem lget_some_lt (xs : List Value) (i : Nat) (w : Value)
    (h : xs.get? i = some w) : i < xs.length := by
  by_contra hc
  push_neg at hc
  rw [List.get?_eq_none.mpr hc] at h
  cases h

theorem resize_noShrink (next : String) (obj obj' : Value)
    (hr : resizeArray next obj = some obj') (pos : List Step) (xs : List Value)
    (hsub : subtree obj pos = some (.arr xs)) :
    ∃ ys, subtree obj' pos = some (.arr ys) ∧ xs.length ≤ ys.length := by
  cases hn : goAtoi next with
  | none =>
    rw [resizeArray, hn] at hr
    injection hr with hr
    subst hr
    exact ⟨xs, hsub, Nat.le_refl _⟩
  | some n =>
    cases obj with
    | null =>
      cases pos with
      | nil => rw [subtree_nil] at hsub; simp at hsub
      | cons st p =>
        rw [subtree_scalar _ (by simp [Value.isContainer]) _ _] at hsub
        cases hsub
    | arr zs =>
      simp only [resizeArray, hn] at hr
      split at hr
      · injection hr with hr
        subst hr
        cases pos with
        | nil =>
          rw [subtree_nil] at hsub
          injection hsub with hsub
          injection hsub with hsub
          subst hsub
          refine ⟨zs ++ List.replicate ((n + 1).toNat - zs.length) .null, subtree_nil _, ?_⟩
          rw [List.length_append]
          omega
        | cons st p =>
          cases st with
          | key k => rw [subtree_arr_key] at hsub; cases hsub
          | idx i =>
            rw [subtree_idx] at hsub
            cases hget : zs.get? i with
            | none => rw [hget] at hsub; simp only [] at hsub; cases hsub
            | some w =>
              rw [hget] at hsub
              simp only [] at hsub
              have hlt := lget_some_lt zs i w hget
              refine ⟨xs, ?_, Nat.le_refl _⟩
              rw [subtree_idx, List.get?_append hlt, hget]
              exact hsub
      · injection hr with hr
        subst hr
        exact ⟨xs, hsub, Nat.le_refl _⟩
    | map es =>
      simp only [resizeArray, hn] at hr
      injection hr with hr
      subst hr
      exact ⟨xs, hsub, Nat.le_refl _⟩
    | bool b =>
      simp only [resizeArray, hn] at hr
      injection hr with hr
      subst hr
      exact ⟨xs, hsub, Nat.le_refl _⟩
    | int k =>
      simp only [resizeArray, hn] at hr
      injection hr with hr
      subst hr
      exact ⟨xs, hsub, Nat.le_refl _⟩
    | float q =>
      simp only [resizeArray, hn] at hr
      injection hr with hr
      subst hr
      exact ⟨xs, hsub, Nat.le_refl _⟩
    | str t =>
      simp only [resizeArray, hn] at hr
      injection hr with hr
      subst hr
      exact ⟨xs, hsub, Nat.le_refl _⟩

/-! ## Target equations -/

theorem target_nil (c : Value) : targetSteps c [] = none := rfl

theorem target_fin_map (es : List (String × Value)) (k : String) :
    targetSteps (.map es) [k] = some [Step.key k] := rfl

theorem target_fin_arr (xs : List Value) (k : String) :
    targetSteps (.arr xs) [k] =
      (match goAtoi k with
       | some i =>
         if 0 ≤ i ∧ i < (xs.length : Int) then some [Step.idx i.toNat] else none
       | none => none) := rfl

theorem target_cons_map (es : List (String × Value)) (k next : String)
    (rest : List String) :
    targetSteps (.map es) (k :: next :: rest) =
      (match mapGet es k with
       | some obj =>
         match resizeArray next obj with
         | some obj' => (targetSteps obj' (next :: rest)).map (Step.key k :: ·)
         | none => none
       | none =>
         match makeChild next with
         | some child => (targetSteps child (next :: rest)).map (Step.key k :: ·)
         | none => none) := rfl

theorem target_cons_arr (xs : List Value) (k next : String) (rest : List String) :
    targetSteps (.arr xs) (k :: next :: rest) =
      (match goAtoi k with
       | some i =>
         if 0 ≤ i ∧ i < (xs.length : Int) then
           match resizeArray next (arrGet xs i.toNat) with
           | some old' => (targetSteps old' (next :: rest)).map (Step.idx i.toNat :: ·)
           | none => none
         else none
       | none => none) := rfl


/-! ## No shrink along the walk -/

theorem walk_noShrink (v : Value) :
    ∀ (ks : List String) (c : Value) (pre : List String)
      (pos : List Step) (xs ys : List Value),
    subtree c pos = some (.arr xs) →
    subtree (setWalk c ks v pre).val pos = some (.arr ys) →
    (∀ t, targetSteps c ks = some t → ¬ List.IsPrefix t pos) →
    xs.length ≤ ys.length := by
  intro ks
  induction ks with
  | nil =>
    intro c pre pos xs ys h1 h2 htgt
    rw [setWalk_nil] at h2
    simp only [SetOut.val] at h2
    exact len_le_of_same xs ys _ h1 h2
  | cons k rest ih =>
    intro c pre pos xs ys h1 h2 htgt
    cases rest with
    | nil =>
      cases c with
      | map es =>
        rw [setWalk_fin_map] at h2
        cases hg : mapGet es k with
        | some obj =>
          rw [hg] at h2
          simp only [] at h2
          by_cases he : obj = v
          · rw [if_pos he] at h2
            simp only [SetOut.val] at h2
            exact len_le_of_same xs ys _ h1 h2
          · rw [if_neg he] at h2
            simp only [SetOut.val] at h2
            cases pos with
            | nil => rw [subtree_nil] at h1; simp at h1
            | cons st p =>
              cases st with
              | idx i => rw [subtree_map_idx] at h1; cases h1
              | key k2 =>
                by_cases hkk : k2 = k
                · subst hkk
                  exact ((htgt [Step.key k2] (by rw [target_fin_map])) ⟨p, rfl⟩).elim
                · rw [subtree_key] at h1 h2
                  rw [mapGet_mapSet_ne es k k2 v hkk] at h2
                  cases hg2 : mapGet es k2 with
                  | none => rw [hg2] at h1; cases h1
                  | some w =>
                    rw [hg2] at h1 h2
                    simp only [] at h1 h2
                    exact len_le_of_same xs ys _ h1 h2
        | none =>
          rw [hg] at h2
          simp only [SetOut.val] at h2
          cases pos with
          | nil => rw [subtree_nil] at h1; simp at h1
          | cons st p =>
            cases st with
            | idx i => rw [subtree_map_idx] at h1; cases h1
            | key k2 =>
              by_cases hkk : k2 = k
              · subst hkk
                rw [subtree_key, hg] at h1
                cases h1
              · rw [subtree_key] at h1 h2
                rw [mapGet_mapSet_ne es k k2 v hkk] at h2
                cases hg2 : mapGet es k2 with
                | none => rw [hg2] at h1; cases h1
                | some w =>
                  rw [hg2] at h1 h2
                  simp only [] at h1 h2
                  exact len_le_of_same xs ys _ h1 h2
      | arr xs0 =>
        rw [setWalk_fin_arr] at h2
        cases hpi : goAtoi k with
        | none =>
          rw [hpi] at h2
          simp only [SetOut.val] at h2
          exact len_le_of_same xs ys _ h1 h2
        | some i =>
          rw [hpi] at h2
          simp only [] at h2
          by_cases hb : 0 ≤ i ∧ i < (xs0.length : Int)
          · rw [if_pos hb] at h2
            have htg : targetSteps (.arr xs0) [k] = some [Step.idx i.toNat] := by
              rw [target_fin_arr, hpi]
              simp only []
              rw [if_pos hb]
            have hset : ∀ ys2, subtree (.arr (xs0.set i.toNat v)) pos = some (.arr ys2) →
                xs.length ≤ ys2.length := by
              intro ys2 h2'
              cases pos with
              | nil =>
                rw [subtree_nil] at h1 h2'
                injection h1 with h1'
                injection h1' with h1'
                injection h2' with h2''
                injection h2'' with h2''
                rw [← h1', ← h2'', List.length_set]
              | cons st p =>
                cases st with
                | key k2 => rw [subtree_arr_key] at h1; cases h1
                | idx j =>
                  by_cases hj : j = i.toNat
                  · subst hj
                    exact ((htgt _ htg) ⟨p, rfl⟩).elim
                  · rw [subtree_idx] at h1 h2'
                    rw [lget_set_ne xs0 i.toNat j v (fun he => hj he.symm)] at h2'
                    cases hg2 : xs0.get? j with
                    | none => rw [hg2] at h1; cases h1
                    | some w =>
                      rw [hg2] at h1 h2'
                      simp only [] at h1 h2'
                      exact len_le_of_same xs ys2 _ h1 h2'
            by_cases h0 : arrGet xs0 i.toNat = .null
            · rw [if_pos h0] at h2
              simp only [SetOut.val] at h2
              exact hset ys h2
            · by_cases he : arrGet xs0 i.toNat = v
              · rw [if_neg h0, if_pos he] at h2
                simp only [SetOut.val] at h2
                exact len_le_of_same xs ys _ h1 h2
              · rw [if_neg h0, if_neg he] at h2
                simp only [SetOut.val] at h2
                exact hset ys h2
          · rw [if_neg hb] at h2
            simp only [SetOut.val] at h2
            exact len_le_of_same xs ys _ h1 h2
      | null =>
        rw [setWalk_scalar _ _ _ _ (by simp [Value.isContainer])] at h2
        simp only [SetOut.val] at h2
        exact len_le_of_same xs ys _ h1 h2
      | bool b =>
        rw [setWalk_scalar _ _ _ _ (by simp [Value.isContainer])] at h2
        simp only [SetOut.val] at h2
        exact len_le_of_same xs ys _ h1 h2
      | int n =>
        rw [setWalk_scalar _ _ _ _ (by simp [Value.isContainer])] at h2
        simp only [SetOut.val] at h2
        exact len_le_of_same xs ys _ h1 h2
      | float q =>
        rw [setWalk_scalar _ _ _ _ (by simp [Value.isContainer])] at h2
        simp only [SetOut.val] at h2
        exact len_le_of_same xs ys _ h1 h2
      | str t =>
        rw [setWalk_scalar _ _ _ _ (by simp [Value.isContainer])] at h2
        simp only [SetOut.val] at h2
        exact len_le_of_same xs ys _ h1 h2
    | cons next rest2 =>
      cases c with
      | map es =>
        rw [setWalk_cons_map] at h2
        cases hg : mapGet es k with
        | some obj =>
          rw [hg] at h2
          simp only [] at h2
          cases hr : resizeArray next obj with
          | none =>
            rw [hr] at h2
            simp only [SetOut.val] at h2
            cases pos with
            | nil => rw [subtree_nil] at h2; simp at h2
            | cons st p =>
              rw [subtree_scalar _ (by simp [Value.isContainer]) _ _] at h2
              cases h2
          | some obj2 =>
            rw [hr] at h2
            simp only [] at h2
            have hmain : ∀ g, (setWalk obj2 (next :: rest2) v (pre ++ [k])).val = g →
                subtree (.map (mapSet es k g)) pos = some (.arr ys) →
                xs.length ≤ ys.length := by
              intro g hgv h2'
              cases pos with
              | nil => rw [subtree_nil] at h1; simp at h1
              | cons st p =>
                cases st with
                | idx i => rw [subtree_map_idx] at h1; cases h1
                | key k2 =>
                  by_cases hkk : k2 = k
                  · simp only [hkk] at h1 h2' htgt
                    rw [subtree_key, hg] at h1
                    simp only [] at h1
                    rw [subtree_key, mapGet_mapSet_self] at h2'
                    simp only [] at h2'
                    obtain ⟨zs, hz, hlz⟩ := resize_noShrink next obj obj2 hr p xs h1
                    have h2v : subtree (setWalk obj2 (next :: rest2) v (pre ++ [k])).val p =
                        some (.arr ys) := by rw [hgv]; exact h2'
                    have htgt2 : ∀ t2, targetSteps obj2 (next :: rest2) = some t2 →
                        ¬ List.IsPrefix t2 p := by
                      intro t2 ht2 hpre
                      obtain ⟨w, hw⟩ := hpre
                      exact htgt (Step.key k :: t2)
                        (by rw [target_cons_map, hg]
                            simp only []
                            rw [hr]
                            simp only []
                            rw [ht2]
                            rfl)
                        ⟨w, by rw [List.cons_append, hw]⟩
                    exact Nat.le_trans hlz (ih obj2 (pre ++ [k]) p zs ys hz h2v htgt2)
                  · rw [subtree_key] at h1 h2'
                    rw [mapGet_mapSet_ne es k k2 g hkk] at h2'
                    cases hg2 : mapGet es k2 with
                    | none => rw [hg2] at h1; cases h1
                    | some w =>
                      rw [hg2] at h1 h2'
                      simp only [] at h1 h2'
                      exact len_le_of_same xs ys _ h1 h2'
            cases hws : setWalk obj2 (next :: rest2) v (pre ++ [k]) with
            | ok g m2 a2 =>
              rw [hws] at h2
              simp only [reattachMap, SetOut.val] at h2
              exact hmain g (by rw [hws]; rfl) h2
            | err g msg =>
              rw [hws] at h2
              simp only [reattachMap, SetOut.val] at h2
              exact hmain g (by rw [hws]; rfl) h2
            | crash =>
              rw [hws] at h2
              simp only [reattachMap, SetOut.val] at h2
              cases pos with
              | nil => rw [subtree_nil] at h2; simp at h2
              | cons st p =>
                rw [subtree_scalar _ (by simp [Value.isContainer]) _ _] at h2
                cases h2
        | none =>
          rw [hg] at h2
          simp only [] at h2
          cases hc : makeChild next with
          | none =>
            rw [hc] at h2
            simp only [SetOut.val] at h2
            cases pos with
            | nil => rw [subtree_nil] at h2; simp at h2
            | cons st p =>
              rw [subtree_scalar _ (by simp [Value.isContainer]) _ _] at h2
              cases h2
          | some child =>
            rw [hc] at h2
            simp only [] at h2
            have hmain : ∀ g, subtree (.map (mapSet es k g)) pos = some (.arr ys) →
                xs.length ≤ ys.length := by
              intro g h2'
              cases pos with
              | nil => rw [subtree_nil] at h1; simp at h1
              | cons st p =>
                cases st with
                | idx i => rw [subtree_map_idx] at h1; cases h1
                | key k2 =>
                  by_cases hkk : k2 = k
                  · simp only [hkk] at h1
                    rw [subtree_key, hg] at h1
                    cases h1
                  · rw [subtree_key] at h1 h2'
                    rw [mapGet_mapSet_ne es k k2 g hkk] at h2'
                    cases hg2 : mapGet es k2 with
                    | none => rw [hg2] at h1; cases h1
                    | some w =>
                      rw [hg2] at h1 h2'
                      simp only [] at h1 h2'
                      exact len_le_of_same xs ys _ h1 h2'
            cases hws : setWalk child (next :: rest2) v (pre ++ [k]) with
            | ok g m2 a2 =>
              rw [hws] at h2
              simp only [reattachMap, SetOut.val] at h2
              exact hmain g h2
            | err g msg =>
              rw [hws] at h2
              simp only [reattachMap, SetOut.val] at h2
              exact hmain g h2
            | crash =>
              rw [hws] at h2
              simp only [reattachMap, SetOut.val] at h2
              cases pos with
              | nil => rw [subtree_nil] at h2; simp at h2
              | cons st p =>
                rw [subtree_scalar _ (by simp [Value.isContainer]) _ _] at h2
                cases h2
      | arr xs0 =>
        rw [setWalk_cons_arr] at h2
        cases hpi : goAtoi k with
        | none =>
          rw [hpi] at h2
          simp only [SetOut.val] at h2
          exact len_le_of_same xs ys _ h1 h2
        | some i =>
          rw [hpi] at h2
          simp only [] at h2
          by_cases hb : 0 ≤ i ∧ i < (xs0.length : Int)
          · rw [if_pos hb] at h2
            have hlt : i.toNat < xs0.length := by omega
            cases hr : resizeArray next (arrGet xs0 i.toNat) with
            | none =>
              rw [hr] at h2
              simp only [SetOut.val] at h2
              cases pos with
              | nil => rw [subtree_nil] at h2; simp at h2
              | cons st p =>
                rw [subtree_scalar _ (by simp [Value.isContainer]) _ _] at h2
                cases h2
            | some old2 =>
              rw [hr] at h2
              simp only [] at h2
              have hmain : ∀ g, (setWalk old2 (next :: rest2) v (pre ++ [k])).val = g →
                  subtree (.arr (xs0.set i.toNat g)) pos = some (.arr ys) →
                  xs.length ≤ ys.length := by
                intro g hgv h2'
                cases pos with
                | nil =>
                  rw [subtree_nil] at h1 h2'
                  injection h1 with h1'
                  injection h1' with h1'
                  injection h2' with h2''
                  injection h2'' with h2''
                  rw [← h1', ← h2'', List.length_set]
                | cons st p =>
                  cases st with
                  | key k2 => rw [subtree_arr_key] at h1; cases h1
                  | idx j =>
                    by_cases hj : j = i.toNat
                    · simp only [hj] at h1 h2' htgt
                      rw [subtree_idx, arrGet_of_lt xs0 i.toNat hlt] at h1
                      simp only [] at h1
                      rw [subtree_idx, lget_set_eq xs0 i.toNat g hlt] at h2'
                      simp only [] at h2'
                      obtain ⟨zs, hz, hlz⟩ :=
                        resize_noShrink next (arrGet xs0 i.toNat) old2 hr p xs h1
                      have h2v : subtree (setWalk old2 (next :: rest2) v (pre ++ [k])).val p =
                          some (.arr ys) := by rw [hgv]; exact h2'
                      have htgt2 : ∀ t2, targetSteps old2 (next :: rest2) = some t2 →
                          ¬ List.IsPrefix t2 p := by
                        intro t2 ht2 hpre
                        obtain ⟨w, hw⟩ := hpre
                        exact htgt (Step.idx i.toNat :: t2)
                          (by rw [target_cons_arr, hpi]
                              simp only []
                              rw [if_pos hb, hr]
                              simp only []
                              rw [ht2]
                              rfl)
                          ⟨w, by rw [List.cons_append, hw]⟩
                      exact Nat.le_trans hlz (ih old2 (pre ++ [k]) p zs ys hz h2v htgt2)
                    · rw [subtree_idx] at h1 h2'
                      rw [lget_set_ne xs0 i.toNat j g (fun he => hj he.symm)] at h2'
                      cases hg2 : xs0.get? j with
                      | none => rw [hg2] at h1; cases h1
                      | some w =>
                        rw [hg2] at h1 h2'
                        simp only [] at h1 h2'
                        exact len_le_of_same xs ys _ h1 h2'
              cases hws : setWalk old2 (next :: rest2) v (pre ++ [k]) with
              | ok g m2 a2 =>
                rw [hws] at h2
                simp only [reattachArr, SetOut.val] at h2
                exact hmain g (by rw [hws]; rfl) h2
              | err g msg =>
                rw [hws] at h2
                simp only [reattachArr, SetOut.val] at h2
                exact hmain g (by rw [hws]; rfl) h2
              | crash =>
                rw [hws] at h2
                simp only [reattachArr, SetOut.val] at h2
                cases pos with
                | nil => rw [subtree_nil] at h2; simp at h2
                | cons st p =>
                  rw [subtree_scalar _ (by simp [Value.isContainer]) _ _] at h2
                  cases h2
          · rw [if_neg hb] at h2
            simp only [SetOut.val] at h2
            exact len_le_of_same xs ys _ h1 h2
      | null =>
        rw [setWalk_scalar _ _ _ _ (by simp [Value.isContainer])] at h2
        simp only [SetOut.val] at h2
        exact len_le_of_same xs ys _ h1 h2
      | bool b =>
        rw [setWalk_scalar _ _ _ _ (by simp [Value.isContainer])] at h2
        simp only [SetOut.val] at h2
        exact len_le_of_same xs ys _ h1 h2
      | int n =>
        rw [setWalk_scalar _ _ _ _ (by simp [Value.isContainer])] at h2
        simp only [SetOut.val] at h2
        exact len_le_of_same xs ys _ h1 h2
      | float q =>
        rw [setWalk_scalar _ _ _ _ (by simp [Value.isContainer])] at h2
        simp only [SetOut.val] at h2
        exact len_le_of_same xs ys _ h1 h2
      | str t =>
        rw [setWalk_scalar _ _ _ _ (by simp [Value.isContainer])] at h2
        simp only [SetOut.val] at h2
        exact len_le_of_same xs ys _ h1 h2


/-- C8 (corrected): `Set` never shrinks a Sequence that it does not
itself overwrite: every position holding a Sequence both before and
after the call, other than the call target position and positions
below it, holds a Sequence at least as long afterwards (the value
written at the target may itself be a shorter Sequence); and in
particular `Set(root,"list.5",v)` followed by `Set(root,"list.2",w)`
leaves `list` at length 6. -/
theorem c8_no_shrink :
    (∀ (root : Value) (p : String) (v : Value) (pos : List Step)
       (xs ys : List Value),
      subtree root pos = some (.arr xs) →
      subtree (goSet root p v).val pos = some (.arr ys) →
      (∀ t, setTarget root p = some t → ¬ List.IsPrefix t pos) →
      xs.length ≤ ys.length) ∧
    goSet (.map []) "list.5" (.int 7) =
      .ok (.map [("list", .arr [.null, .null, .null, .null, .null, .int 7])])
        [] [("list.5", .null)] ∧
    goSet (.map [("list", .arr [.null, .null, .null, .null, .null, .int 7])])
        "list.2" (.int 9) =
      .ok (.map [("list", .arr [.null, .null, .int 9, .null, .null, .int 7])])
        [] [("list.2", .null)] := by
  refine ⟨?_, by decide, by decide⟩
  intro root p v pos xs ys h1 h2 htgt
  by_cases hp : trimPath p = ""
  · exact ((htgt [] (by simp [setTarget, hp])) List.nil_prefix).elim
  · simp only [goSet] at h2
    rw [if_neg hp] at h2
    cases root with
    | map es =>
      have hri : rootInit (.map es) = .map es := by simp [rootInit]
      rw [hri] at h2
      simp only [rootFix] at h2
      have htgt2 : ∀ t, targetSteps (.map es) (splitDot (trimPath p)) = some t →
          ¬ List.IsPrefix t pos := by
        intro t ht
        refine htgt t ?_
        simp only [setTarget]
        rw [if_neg hp, hri]
        simp only [rootFix]
        exact ht
      cases hws : setWalk (.map es) (splitDot (trimPath p)) v [] with
      | ok t m a =>
        rw [hws] at h2
        simp only [] at h2
        simp only [SetOut.val] at h2
        refine walk_noShrink v _ (.map es) [] pos xs ys h1 ?_ htgt2
        rw [hws]
        simp only [SetOut.val]
        exact h2
      | err t msg =>
        rw [hws] at h2
        simp only [] at h2
        simp only [SetOut.val] at h2
        refine walk_noShrink v _ (.map es) [] pos xs ys h1 ?_ htgt2
        rw [hws]
        simp only [SetOut.val]
        exact h2
      | crash =>
        rw [hws] at h2
        simp only [] at h2
        simp only [SetOut.val] at h2
        cases pos with
        | nil => rw [subtree_nil] at h2; simp at h2
        | cons st p2 =>
          rw [subtree_scalar _ (by simp [Value.isContainer]) _ _] at h2
          cases h2
    | arr xs0 =>
      have hri : rootInit (.arr xs0) = .arr xs0 := by simp [rootInit]
      rw [hri] at h2
      simp only [rootFix] at h2
      have htgt2 : ∀ t, targetSteps (.arr xs0) (splitDot (trimPath p)) = some t →
          ¬ List.IsPrefix t pos := by
        intro t ht
        refine htgt t ?_
        simp only [setTarget]
        rw [if_neg hp, hri]
        simp only [rootFix]
        exact ht
      cases hws : setWalk (.arr xs0) (splitDot (trimPath p)) v [] with
      | ok t m a =>
        rw [hws] at h2
        simp only [] at h2
        simp only [SetOut.val] at h2
        refine walk_noShrink v _ (.arr xs0) [] pos xs ys h1 ?_ htgt2
        rw [hws]
        simp only [SetOut.val]
        exact h2
      | err t msg =>
        rw [hws] at h2
        simp only [] at h2
        simp only [SetOut.val] at h2
        refine walk_noShrink v _ (.arr xs0) [] pos xs ys h1 ?_ htgt2
        rw [hws]
        simp only [SetOut.val]
        exact h2
      | crash =>
        rw [hws] at h2
        simp only [] at h2
        simp only [SetOut.val] at h2
        cases pos with
        | nil => rw [subtree_nil] at h2; simp at h2
        | cons st p2 =>
          rw [subtree_scalar _ (by simp [Value.isContainer]) _ _] at h2
          cases h2
    | null =>
      cases pos with
      | nil => rw [subtree_nil] at h1; simp at h1
      | cons st p2 =>
        rw [subtree_scalar _ (by simp [Value.isContainer]) _ _] at h1
        cases h1
    | bool b =>
      cases pos with
      | nil => rw [subtree_nil] at h1; simp at h1
      | cons st p2 =>
        rw [subtree_scalar _ (by simp [Value.isContainer]) _ _] at h1
        cases h1
    | int n =>
      cases pos with
      | nil => rw [subtree_nil] at h1; simp at h1
      | cons st p2 =>
        rw [subtree_scalar _ (by simp [Value.isContainer]) _ _] at h1
        cases h1
    | float q =>
      cases pos with
      | nil => rw [subtree_nil] at h1; simp at h1
      | cons st p2 =>
        rw [subtree_scalar _ (by simp [Value.isContainer]) _ _] at h1
        cases h1
    | str t =>
      cases pos with
      | nil => rw [subtree_nil] at h1; simp at h1
      | cons st p2 =>
        rw [subtree_scalar _ (by simp [Value.isContainer]) _ _] at h1
        cases h1

/-- Witness for C8: setting key `b` on `{"a": [nil, nil]}` leaves the
sequence at `a` (a position outside the target) no shorter. -/
theorem c8_no_shrink_witness :
    ([Value.null, Value.null] : List Value).length ≤
      ([Value.null, Value.null] : List Value).length :=
  c8_no_shrink.1 (.map [("a", .arr [.null, .null])]) "b" .null
    [Step.key "a"] [Value.null, Value.null] [Value.null, Value.null]
    (by decide) (by decide)
    (by
      intro t ht hpre
      have hst : setTarget (.map [("a", .arr [.null, .null])]) "b" =
          some [Step.key "b"] := by decide
      rw [hst] at ht
      injection ht with ht
      subst ht
      obtain ⟨w, hw⟩ := hpre
      simp at hw)

end Config
